import Mathlib

set_option autoImplicit false

/-!
Shallow embedding of the local barrier manager state machine from
`src/stream/src/task/barrier_manager/managed_state.rs`.

Modelling conventions:
* `u64` epochs and the integer identifiers become `Nat`.
* `BTreeMap` becomes an association list sorted by strictly increasing key;
  `BTreeSet`/`HashSet` become `Finset Nat`; `HashMap` becomes an unordered
  association list.
* Rust aborts (`assert!`, `expect`, `unreachable!`, explicit aborts) are
  modelled by the `panicked` constructor of the result types, carrying the
  state as it is at the moment of the abort: mutations made before the abort
  are kept, since they remain observable on `&mut self` in the source.
* Fallible operations (`StreamResult`) additionally use an `err` constructor
  (the barrier-send error).
* Instrumentation (latency timers, metrics counters, await-tree registration,
  tracing and the debug printer) and the tokio join handles are elided: they
  do not affect the state machine.  The storage handle's `start_epoch` call is
  a side effect on the storage layer and is elided; the table-id set a
  checkpoint sync receives is recorded in the completion future
  (`sync_table_ids`).
* `FuturesOrdered` of completion futures becomes a FIFO list
  (`await_epoch_completed_futures`); the data a future closes over (its
  barrier, the table-id set handed to `sync_epoch`, and the popped
  `create_mview_progress`) is recorded in the list entry, and the eventual
  `BarrierCompleteResult` is represented by that data (the external sync
  outcome does not affect the state machine).
* `cfg!(debug_assertions)` branches in the subscription bookkeeping follow
  the release behaviour (warn and continue); `cfg!(test)` blocks are omitted.
-/

abbrev ActorId := Nat
abbrev PartialGraphId := Nat
abbrev TableId := Nat

/-- `EpochPair` from `risingwave_common::util::epoch`. -/
structure EpochPair where
  prev : Nat
  curr : Nat
deriving DecidableEq, Repr

/-- `BarrierKind` from the protobuf `stream_plan::barrier::BarrierKind`. -/
inductive BarrierKind where
  | Unspecified
  | Initial
  | Barrier
  | Checkpoint
deriving DecidableEq, Repr

/-- The parts of `crate::executor::Barrier` the barrier manager reads:
its epoch pair, kind, opaque mutation payload, and the all-stop actor set
returned by `Barrier::all_stop_actors`. -/
structure Barrier where
  epoch : EpochPair
  kind : BarrierKind
  mutation : Option Nat
  all_stop_actors : Option (List ActorId)
deriving DecidableEq, Repr

/-! ### Association-list maps (models of `BTreeMap` / `HashMap`) -/

def keysOf {α : Type} (l : List (Nat × α)) : List Nat := l.map Prod.fst

def lookupKey {α : Type} (k : Nat) : List (Nat × α) → Option α
  | [] => none
  | (k1, v1) :: rest => if k = k1 then some v1 else lookupKey k rest

def setKey {α : Type} (k : Nat) (v : α) : List (Nat × α) → List (Nat × α)
  | [] => []
  | (k1, v1) :: rest => if k = k1 then (k, v) :: rest else (k1, v1) :: setKey k v rest

def eraseKey {α : Type} (k : Nat) : List (Nat × α) → List (Nat × α)
  | [] => []
  | (k1, v1) :: rest => if k = k1 then rest else (k1, v1) :: eraseKey k rest

/-- `BTreeMap::insert`: keep the list sorted by key; an existing key is
replaced in place. -/
def insertSorted {α : Type} (k : Nat) (v : α) : List (Nat × α) → List (Nat × α)
  | [] => [(k, v)]
  | (k1, v1) :: rest =>
    if k < k1 then (k, v) :: (k1, v1) :: rest
    else if k = k1 then (k, v) :: rest
    else (k1, v1) :: insertSorted k v rest

/-- `HashMap` upsert (used for `entry(..).or_default()`-style updates). -/
def upsertKey {α : Type} (k : Nat) (v : α) : List (Nat × α) → List (Nat × α)
  | [] => [(k, v)]
  | (k1, v1) :: rest => if k = k1 then (k, v) :: rest else (k1, v1) :: upsertKey k v rest

/-! ### Result types: aborts and fallible calls -/

/-- Result of an operation that can abort; `panicked` carries the state at
the moment of the abort. -/
inductive PRes (α : Type) where
  | panicked : α → PRes α
  | ok : α → PRes α
deriving DecidableEq, Repr

def PRes.val {α : Type} : PRes α → α
  | .panicked a => a
  | .ok a => a

def PRes.isPanicked {α : Type} : PRes α → Bool
  | .panicked _ => true
  | .ok _ => false

def PRes.isOk {α : Type} : PRes α → Bool
  | .panicked _ => false
  | .ok _ => true

/-- Result of an operation that can abort or return a `StreamResult` error. -/
inductive ERes (α : Type) where
  | panicked : α → ERes α
  | err : α → ERes α
  | ok : α → ERes α
deriving DecidableEq, Repr

def ERes.val {α : Type} : ERes α → α
  | .panicked a => a
  | .err a => a
  | .ok a => a

def ERes.isPanicked {α : Type} : ERes α → Bool
  | .panicked _ => true
  | _ => false

def ERes.isErr {α : Type} : ERes α → Bool
  | .err _ => true
  | _ => false

def ERes.isOk {α : Type} : ERes α → Bool
  | .ok _ => true
  | _ => false

/-! ### Per-actor state (`InflightActorState`) -/

/-- `InflightActorStatus`: `IssuedFirst` holds the pending barriers issued
before the first collect; `Running` holds the largest issued `prev` epoch. -/
inductive InflightActorStatus where
  | IssuedFirst : List Barrier → InflightActorStatus
  | Running : Nat → InflightActorStatus
deriving DecidableEq, Repr

/-- `InflightActorStatus::max_issued_epoch`; `none` models the
`expect("non-empty")` abort on an empty `IssuedFirst` list. -/
def InflightActorStatus.max_issued_epoch : InflightActorStatus → Option Nat
  | .Running epoch => some epoch
  | .IssuedFirst issued_barriers => issued_barriers.getLast?.map (fun b => b.epoch.prev)

/-- One `mpsc::UnboundedSender<Barrier>` endpoint: `closed` is true when the
receiving half has been dropped (sends fail); `sent` records the barriers
pushed so far. -/
structure Sender where
  closed : Bool
  sent : List Barrier
deriving DecidableEq, Repr

/-- `InflightActorState` (join handles elided). -/
structure InflightActorState where
  actor_id : ActorId
  barrier_senders : List Sender
  inflight_barriers : List (Nat × PartialGraphId)
  status : InflightActorStatus
  is_stopping : Bool
deriving DecidableEq, Repr

/-- `InflightActorState::start`. -/
def InflightActorState.start (actor_id : ActorId) (initial_partial_graph_id : PartialGraphId)
    (initial_barrier : Barrier) : InflightActorState :=
  { actor_id := actor_id,
    barrier_senders := [],
    inflight_barriers := [(initial_barrier.epoch.prev, initial_partial_graph_id)],
    status := .IssuedFirst [initial_barrier],
    is_stopping := false }

/-- Push `b` on every sender in order; the first closed sender makes the whole
call fail, but sends to the earlier senders have already happened. -/
def sendToAll (b : Barrier) : List Sender → Except (List Sender) (List Sender)
  | [] => .ok []
  | tx :: rest =>
    if tx.closed then .error (tx :: rest)
    else
      match sendToAll b rest with
      | .ok rest1 => .ok ({ tx with sent := tx.sent ++ [b] } :: rest1)
      | .error rest1 => .error ({ tx with sent := tx.sent ++ [b] } :: rest1)

/-- `InflightActorState::issue_barrier`.  The epoch-monotonicity assert runs
first; then the sends (a failure returns the barrier-send error before any
field of the actor state is mutated); then the `inflight_barriers` insert
(whose duplicate assert aborts), the status update, and only under `is_stop`
the `!is_stopping` assert followed by setting `is_stopping`. -/
def InflightActorState.issue_barrier (a : InflightActorState) (partial_graph_id : PartialGraphId)
    (barrier : Barrier) (is_stop : Bool) : ERes InflightActorState :=
  match a.status.max_issued_epoch with
  | none => .panicked a
  | some max_epoch =>
    if barrier.epoch.prev ≤ max_epoch then .panicked a
    else
      match sendToAll barrier a.barrier_senders with
      | .error senders1 => .err { a with barrier_senders := senders1 }
      | .ok senders1 =>
        let a1 := { a with barrier_senders := senders1 }
        if barrier.epoch.prev ∈ keysOf a1.inflight_barriers then .panicked a1
        else
          let a2 := { a1 with
            inflight_barriers :=
              insertSorted barrier.epoch.prev partial_graph_id a1.inflight_barriers }
          let a3 :=
            match a2.status with
            | .IssuedFirst pending_barriers =>
              { a2 with status := .IssuedFirst (pending_barriers ++ [barrier]) }
            | .Running _ => { a2 with status := .Running barrier.epoch.prev }
          if is_stop then
            if a3.is_stopping then .panicked a3
            else .ok { a3 with is_stopping := true }
          else .ok a3

/-- Result of `InflightActorState::collect`: on success it yields the partial
graph id stored under the popped epoch, the `is_finished` flag, and the
updated actor state. -/
inductive ActorCollectRes where
  | panicked : InflightActorState → ActorCollectRes
  | ok : PartialGraphId → Bool → InflightActorState → ActorCollectRes
deriving DecidableEq, Repr

/-- `InflightActorState::collect`.  Pops the smallest inflight entry (the pop
happens before the equality assert), asserts it matches `epoch.prev`, and on
the first collect transitions `IssuedFirst` to `Running` at the last pending
barrier's `prev` epoch. -/
def InflightActorState.collect (a : InflightActorState) (epoch : EpochPair) : ActorCollectRes :=
  match a.inflight_barriers with
  | [] => .panicked a
  | (prev_epoch, prev_partial_graph_id) :: rest =>
    let a1 := { a with inflight_barriers := rest }
    if prev_epoch ≠ epoch.prev then .panicked a1
    else
      match a1.status with
      | .IssuedFirst pending_barriers =>
        match pending_barriers with
        | [] => .panicked a1
        | first :: more =>
          if first.epoch.prev ≠ prev_epoch then .panicked a1
          else
            let a2 := { a1 with status := .Running (more.getLastD first).epoch.prev }
            .ok prev_partial_graph_id (rest.isEmpty && a2.is_stopping) a2
      | .Running _ => .ok prev_partial_graph_id (rest.isEmpty && a1.is_stopping) a1

/-- `InflightActorState::register_barrier_sender`: legal only in
`IssuedFirst`; replays the pending barriers on `tx` (a send failure is a
barrier-send error and the sender is not stored), then stores `tx`.  In
`Running` it is `unreachable!`. -/
def InflightActorState.register_barrier_sender (a : InflightActorState) (tx : Sender) :
    ERes InflightActorState :=
  match a.status with
  | .IssuedFirst pending_barriers =>
    if tx.closed && !pending_barriers.isEmpty then .err a
    else
      .ok { a with barrier_senders :=
        a.barrier_senders ++ [{ tx with sent := tx.sent ++ pending_barriers }] }
  | .Running _ => .panicked a

/-! ### Per-graph state (`PartialGraphManagedBarrierState`) -/

/-- `BarrierCompleteResult`: the sync outcome (abstracted as the table-id set
that was synced, `none` for the no-sync kinds) plus the reported
create-mview progress. -/
structure BarrierCompleteResult where
  sync_result : Option (Finset TableId)
  create_mview_progress : List (ActorId × Nat)
deriving DecidableEq

/-- `IssuedState` (the latency timer is elided). -/
structure IssuedState where
  mutation : Option Nat
  remaining_actors : Finset ActorId
  table_ids : Option (Finset TableId)
  kind : BarrierKind
deriving DecidableEq

/-- `ManagedBarrierStateInner`. -/
inductive ManagedBarrierStateInner where
  | Issued : IssuedState → ManagedBarrierStateInner
  | AllCollected : ManagedBarrierStateInner
  | Completed : BarrierCompleteResult → ManagedBarrierStateInner
deriving DecidableEq

def innerIssued : ManagedBarrierStateInner → Bool
  | .Issued _ => true
  | _ => false

/-- `BarrierState`. -/
structure BarrierState where
  barrier : Barrier
  inner : ManagedBarrierStateInner
deriving DecidableEq

/-- One entry of the `FuturesOrdered` completion queue: the data the
`AwaitEpochCompletedFuture` closes over.  `sync_table_ids = some t` means the
future runs `sync_epoch` with table set `t` (a `Checkpoint` barrier);
`none` means no storage work. -/
structure AwaitEpochCompletedFuture where
  barrier : Barrier
  sync_table_ids : Option (Finset TableId)
  create_mview_progress : List (ActorId × Nat)
deriving DecidableEq

/-- `SubscriptionUpstreamInfo` from the protobuf. -/
structure SubscriptionUpstreamInfo where
  upstream_mv_table_id : TableId
  subscriber_id : Nat
deriving DecidableEq, Repr

/-- `PartialGraphManagedBarrierState` (state-store handle, metrics and
await-tree registry elided). -/
structure PartialGraphManagedBarrierState where
  epoch_barrier_state_map : List (Nat × BarrierState)
  prev_barrier_table_ids : Option (EpochPair × Finset TableId)
  mv_depended_subscriptions : List (TableId × Finset Nat)
  create_mview_progress : List (Nat × List (ActorId × Nat))
  await_epoch_completed_futures : List AwaitEpochCompletedFuture
deriving DecidableEq

abbrev PGState := PartialGraphManagedBarrierState

/-- `PartialGraphManagedBarrierState::new_inner` with everything empty. -/
def pgInit : PGState :=
  { epoch_barrier_state_map := [],
    prev_barrier_table_ids := none,
    mv_depended_subscriptions := [],
    create_mview_progress := [],
    await_epoch_completed_futures := [] }

/-- The body of the completion future built at an `AllCollected` transition
(§ `may_have_collected_all`): `Unspecified` is `unreachable!` and a
`Checkpoint` whose `table_ids` is `None` aborts on `expect`; `Initial` and
`Barrier` do no storage work; `Checkpoint` syncs the stored table set. -/
def mkCompleteFuture (barrier : Barrier) (kind : BarrierKind)
    (table_ids : Option (Finset TableId)) (progress : List (ActorId × Nat)) :
    Option AwaitEpochCompletedFuture :=
  match kind with
  | .Unspecified => none
  | .Initial => some { barrier := barrier, sync_table_ids := none, create_mview_progress := progress }
  | .Barrier => some { barrier := barrier, sync_table_ids := none, create_mview_progress := progress }
  | .Checkpoint =>
    table_ids.map (fun t =>
      { barrier := barrier, sync_table_ids := some t, create_mview_progress := progress })

/-- The walk of `may_have_collected_all` over `epoch_barrier_state_map` in
ascending key order: entries already `AllCollected`/`Completed` are skipped,
an `Issued` entry with empty `remaining_actors` is flipped to `AllCollected`
(its create-mview progress is popped and a completion future is enqueued),
and the walk stops at the first `Issued` entry with remaining actors.
Returns the rewritten map, the remaining progress map, and the futures to
push onto the queue, in flip order. -/
def mhcaGo : List (Nat × BarrierState) → List (Nat × List (ActorId × Nat)) →
    PRes (List (Nat × BarrierState) × List (Nat × List (ActorId × Nat)) ×
      List AwaitEpochCompletedFuture)
  | [], prog => .ok ([], prog, [])
  | (k, bs) :: rest, prog =>
    match bs.inner with
    | .Issued ist =>
      if ist.remaining_actors = ∅ then
        let flipped : BarrierState := { bs with inner := .AllCollected }
        let progress := (lookupKey bs.barrier.epoch.curr prog).getD []
        let prog1 := eraseKey bs.barrier.epoch.curr prog
        match mkCompleteFuture bs.barrier ist.kind ist.table_ids progress with
        | none => .panicked ((k, flipped) :: rest, prog1, [])
        | some fut =>
          match mhcaGo rest prog1 with
          | .ok (m1, p1, fs) => .ok ((k, flipped) :: m1, p1, fut :: fs)
          | .panicked (m1, p1, fs) => .panicked ((k, flipped) :: m1, p1, fut :: fs)
      else .ok ((k, bs) :: rest, prog, [])
    | _ =>
      match mhcaGo rest prog with
      | .ok (m1, p1, fs) => .ok ((k, bs) :: m1, p1, fs)
      | .panicked (m1, p1, fs) => .panicked ((k, bs) :: m1, p1, fs)

/-- `PartialGraphManagedBarrierState::may_have_collected_all` (the `prev_epoch`
argument only drives a metrics counter in the source and is elided). -/
def PartialGraphManagedBarrierState.may_have_collected_all (s : PGState) : PRes PGState :=
  match mhcaGo s.epoch_barrier_state_map s.create_mview_progress with
  | .ok (m1, p1, fs) =>
    .ok { s with
      epoch_barrier_state_map := m1,
      create_mview_progress := p1,
      await_epoch_completed_futures := s.await_epoch_completed_futures ++ fs }
  | .panicked (m1, p1, fs) =>
    .panicked { s with
      epoch_barrier_state_map := m1,
      create_mview_progress := p1,
      await_epoch_completed_futures := s.await_epoch_completed_futures ++ fs }

/-- `PartialGraphManagedBarrierState::collect`: the entry must exist and be
`Issued`; the actor is removed from `remaining_actors` (the removal happens
before the `exist` and `curr` asserts); then `may_have_collected_all`. -/
def PartialGraphManagedBarrierState.collect (s : PGState) (actor_id : ActorId)
    (epoch : EpochPair) : PRes PGState :=
  match lookupKey epoch.prev s.epoch_barrier_state_map with
  | none => .panicked s
  | some bs =>
    match bs.inner with
    | .Issued ist =>
      let ist1 := { ist with remaining_actors := ist.remaining_actors.erase actor_id }
      let m1 := setKey epoch.prev { bs with inner := .Issued ist1 } s.epoch_barrier_state_map
      let s1 := { s with epoch_barrier_state_map := m1 }
      if actor_id ∈ ist.remaining_actors then
        if bs.barrier.epoch.curr = epoch.curr then s1.may_have_collected_all
        else .panicked s1
      else .panicked s1
    | _ => .panicked s

/-- The `prev_barrier_table_ids` bookkeeping at the head of
`transform_to_issued`, per barrier kind.  Returns the new
`prev_barrier_table_ids` and the `table_ids` stored in the `Issued` state
(`Some` exactly for `Checkpoint`); `none` models the aborts (`Unspecified`
is unreachable, `Initial` asserts the field is not yet set, `Barrier` asserts
epoch continuity and an unchanged table set).  No abort happens after the
field would be updated. -/
def updatePrevTableIds (barrier : Barrier) (table_ids : Finset TableId)
    (prev : Option (EpochPair × Finset TableId)) :
    Option (Option (EpochPair × Finset TableId) × Option (Finset TableId)) :=
  match barrier.kind with
  | .Unspecified => none
  | .Initial =>
    match prev with
    | some _ => none
    | none => some (some (barrier.epoch, table_ids), none)
  | .Barrier =>
    match prev with
    | some (prev_epoch, prev_table_ids) =>
      if prev_epoch.curr = barrier.epoch.prev then
        if prev_table_ids = table_ids then some (some (barrier.epoch, prev_table_ids), none)
        else none
      else none
    | none => some (some (barrier.epoch, table_ids), none)
  | .Checkpoint =>
    some (some (barrier.epoch, table_ids),
      some (match prev with
        | some (prev_epoch, prev_table_ids) =>
          if prev_epoch.curr = barrier.epoch.prev then prev_table_ids else ∅
        | none => ∅))

/-- `PartialGraphManagedBarrierState::transform_to_issued`: the
`prev_barrier_table_ids` bookkeeping (aborting without touching it), then the
duplicate-epoch abort (after the bookkeeping has updated the field), then the
insertion of the fresh `Issued` state keyed by `barrier.epoch.prev`, and
finally `may_have_collected_all`. -/
def PartialGraphManagedBarrierState.transform_to_issued (s : PGState) (barrier : Barrier)
    (actor_ids_to_collect : List ActorId) (table_ids : Finset TableId) : PRes PGState :=
  match updatePrevTableIds barrier table_ids s.prev_barrier_table_ids with
  | none => .panicked s
  | some (new_prev, issued_table_ids) =>
    let s1 := { s with prev_barrier_table_ids := new_prev }
    match lookupKey barrier.epoch.prev s1.epoch_barrier_state_map with
    | some _ => .panicked s1
    | none =>
      let ist : IssuedState :=
        { mutation := barrier.mutation,
          remaining_actors := actor_ids_to_collect.toFinset,
          table_ids := issued_table_ids,
          kind := barrier.kind }
      let m2 := insertSorted barrier.epoch.prev { barrier := barrier, inner := .Issued ist }
        s1.epoch_barrier_state_map
      let s2 := { s1 with epoch_barrier_state_map := m2 }
      s2.may_have_collected_all

/-- `PartialGraphManagedBarrierState::poll_next_completed_barrier`: `none`
models `Poll::Pending` (empty queue); otherwise the head future's barrier
state must exist and be `AllCollected` (a sanity-check abort) and is stored
as `Completed` with the future's result. -/
def PartialGraphManagedBarrierState.poll_next_completed_barrier (s : PGState) :
    Option (PRes (Barrier × PGState)) :=
  match s.await_epoch_completed_futures with
  | [] => none
  | fut :: rest =>
    let s1 := { s with await_epoch_completed_futures := rest }
    match lookupKey fut.barrier.epoch.prev s1.epoch_barrier_state_map with
    | none => some (.panicked (fut.barrier, s1))
    | some bs =>
      match bs.inner with
      | .AllCollected =>
        let result : BarrierCompleteResult :=
          { sync_result := fut.sync_table_ids,
            create_mview_progress := fut.create_mview_progress }
        let m1 := setKey fut.barrier.epoch.prev { bs with inner := .Completed result }
          s1.epoch_barrier_state_map
        some (.ok (fut.barrier, { s1 with epoch_barrier_state_map := m1 }))
      | _ => some (.panicked (fut.barrier, s1))

/-- `PartialGraphManagedBarrierState::pop_completed_epoch`: a missing entry is
an error (not an abort); a not-yet-`Completed` entry yields `none` and leaves
the map unchanged; a `Completed` entry is removed and its result returned. -/
def PartialGraphManagedBarrierState.pop_completed_epoch (s : PGState) (prev_epoch : Nat) :
    Except Unit (Option BarrierCompleteResult × PGState) :=
  match lookupKey prev_epoch s.epoch_barrier_state_map with
  | none => .error ()
  | some bs =>
    match bs.inner with
    | .Completed result =>
      let m1 := eraseKey prev_epoch s.epoch_barrier_state_map
      .ok (some result, { s with epoch_barrier_state_map := m1 })
    | _ => .ok (none, s)

/-- `PartialGraphManagedBarrierState::add_subscriptions` (release behaviour:
a duplicate add warns and leaves the set unchanged). -/
def PartialGraphManagedBarrierState.add_subscriptions (s : PGState)
    (subscriptions : List SubscriptionUpstreamInfo) : PGState :=
  subscriptions.foldl
    (fun s sub =>
      let cur := (lookupKey sub.upstream_mv_table_id s.mv_depended_subscriptions).getD ∅
      let subs1 := upsertKey sub.upstream_mv_table_id (insert sub.subscriber_id cur)
        s.mv_depended_subscriptions
      { s with mv_depended_subscriptions := subs1 })
    s

/-- `PartialGraphManagedBarrierState::remove_subscriptions` (release
behaviour: a missing upstream table or subscriber warns and continues); an
emptied subscriber set removes the entry. -/
def PartialGraphManagedBarrierState.remove_subscriptions (s : PGState)
    (subscriptions : List SubscriptionUpstreamInfo) : PGState :=
  subscriptions.foldl
    (fun s sub =>
      match lookupKey sub.upstream_mv_table_id s.mv_depended_subscriptions with
      | none => s
      | some subscribers =>
        let subscribers1 := subscribers.erase sub.subscriber_id
        let subs1 :=
          if subscribers1 = ∅ then
            eraseKey sub.upstream_mv_table_id s.mv_depended_subscriptions
          else
            setKey sub.upstream_mv_table_id subscribers1 s.mv_depended_subscriptions
        { s with mv_depended_subscriptions := subs1 })
    s

/-! ### Root state (`ManagedBarrierState`) -/

/-- `ManagedBarrierState` (actor-manager and shared-context handles elided). -/
structure ManagedBarrierState where
  actor_states : List (ActorId × InflightActorState)
  graph_states : List (PartialGraphId × PartialGraphManagedBarrierState)
deriving DecidableEq

/-- The fields of `InjectBarrierRequest` the manager reads (an actor
descriptor in `actors_to_build` is represented by its actor id). -/
structure InjectBarrierRequest where
  partial_graph_id : PartialGraphId
  actor_ids_to_collect : List ActorId
  table_ids_to_sync : List TableId
  actors_to_build : List ActorId
  subscriptions_to_add : List SubscriptionUpstreamInfo
  subscriptions_to_remove : List SubscriptionUpstreamInfo
deriving DecidableEq, Repr

/-- The `is_stop_actor` closure in `ManagedBarrierState::transform_to_issued`. -/
def Barrier.is_stop_actor (b : Barrier) (actor_id : ActorId) : Bool :=
  match b.all_stop_actors with
  | some actors => decide (actor_id ∈ actors)
  | none => false

/-- The `actors_to_build` loop of `ManagedBarrierState::transform_to_issued`:
each new actor must not be an all-stop actor, must not repeat, must be in
`actor_ids_to_collect`, and must not already be registered; a fresh
`InflightActorState` is inserted (the spawn side effects are elided). -/
def buildActors (partial_graph_id : PartialGraphId) (barrier : Barrier)
    (actor_ids_to_collect : List ActorId) :
    List ActorId → Finset ActorId → List (ActorId × InflightActorState) →
    PRes (Finset ActorId × List (ActorId × InflightActorState))
  | [], new_actors, states => .ok (new_actors, states)
  | actor_id :: rest, new_actors, states =>
    if barrier.is_stop_actor actor_id then .panicked (new_actors, states)
    else if actor_id ∈ new_actors then .panicked (new_actors, states)
    else if actor_id ∉ actor_ids_to_collect then .panicked (new_actors, states)
    else if actor_id ∈ keysOf states then .panicked (new_actors, states)
    else
      buildActors partial_graph_id barrier actor_ids_to_collect rest
        (insert actor_id new_actors)
        (states ++ [(actor_id, InflightActorState.start actor_id partial_graph_id barrier)])

/-- The final loop of `ManagedBarrierState::transform_to_issued`: issue the
barrier to every actor of `actor_ids_to_collect` that was not just built; a
missing actor state aborts, and an abort or send error from `issue_barrier`
propagates (the updates made so far persist). -/
def issueAll (partial_graph_id : PartialGraphId) (barrier : Barrier) (new_actors : Finset ActorId) :
    List ActorId → List (ActorId × InflightActorState) →
    ERes (List (ActorId × InflightActorState))
  | [], states => .ok states
  | actor_id :: rest, states =>
    if actor_id ∈ new_actors then issueAll partial_graph_id barrier new_actors rest states
    else
      match lookupKey actor_id states with
      | none => .panicked states
      | some a =>
        match a.issue_barrier partial_graph_id barrier (barrier.is_stop_actor actor_id) with
        | .panicked a1 => .panicked (setKey actor_id a1 states)
        | .err a1 => .err (setKey actor_id a1 states)
        | .ok a1 => issueAll partial_graph_id barrier new_actors rest (setKey actor_id a1 states)

/-- `ManagedBarrierState::transform_to_issued`: look up the target graph
(missing is an abort), apply the subscription deltas, run the graph's
`transform_to_issued`, build the new actors, then issue the barrier to the
remaining actors of `actor_ids_to_collect`. -/
def ManagedBarrierState.transform_to_issued (m : ManagedBarrierState) (barrier : Barrier)
    (request : InjectBarrierRequest) : ERes ManagedBarrierState :=
  match lookupKey request.partial_graph_id m.graph_states with
  | none => .panicked m
  | some graph_state =>
    let graph_state := graph_state.add_subscriptions request.subscriptions_to_add
    let graph_state := graph_state.remove_subscriptions request.subscriptions_to_remove
    match graph_state.transform_to_issued barrier request.actor_ids_to_collect
        request.table_ids_to_sync.toFinset with
    | .panicked gs1 =>
      .panicked { m with graph_states := setKey request.partial_graph_id gs1 m.graph_states }
    | .ok gs1 =>
      let m1 := { m with graph_states := setKey request.partial_graph_id gs1 m.graph_states }
      match buildActors request.partial_graph_id barrier request.actor_ids_to_collect
          request.actors_to_build ∅ m1.actor_states with
      | .panicked (_, states) => .panicked { m1 with actor_states := states }
      | .ok (new_actors, states) =>
        match issueAll request.partial_graph_id barrier new_actors
            request.actor_ids_to_collect states with
        | .panicked states1 => .panicked { m1 with actor_states := states1 }
        | .err states1 => .err { m1 with actor_states := states1 }
        | .ok states1 => .ok { m1 with actor_states := states1 }

/-- `ManagedBarrierState::collect`: delegate to the actor's `collect`
(missing actor is an abort); when the actor reports finished its entry is
removed from `actor_states` (and its monitor task aborted, elided); then the
prior partial graph's `collect` runs. -/
def ManagedBarrierState.collect (m : ManagedBarrierState) (actor_id : ActorId)
    (epoch : EpochPair) : PRes ManagedBarrierState :=
  match lookupKey actor_id m.actor_states with
  | none => .panicked m
  | some actor_state =>
    match actor_state.collect epoch with
    | .panicked a1 => .panicked { m with actor_states := setKey actor_id a1 m.actor_states }
    | .ok prev_partial_graph_id is_finished a1 =>
      let actor_states1 :=
        if is_finished then eraseKey actor_id m.actor_states
        else setKey actor_id a1 m.actor_states
      let m1 := { m with actor_states := actor_states1 }
      match lookupKey prev_partial_graph_id m1.graph_states with
      | none => .panicked m1
      | some graph_state =>
        match graph_state.collect actor_id epoch with
        | .panicked gs1 =>
          .panicked { m1 with graph_states := setKey prev_partial_graph_id gs1 m1.graph_states }
        | .ok gs1 =>
          .ok { m1 with graph_states := setKey prev_partial_graph_id gs1 m1.graph_states }

/-! ### Traces of graph-level operations

For the ordering claim we close the per-graph operations under sequential
composition: a trace of `transform_to_issued` / `collect` calls interleaved
with polls of the completion queue and pops of completed epochs.  `applyOp`
returns `none` when the operation aborts, and otherwise the new state
together with the `prev_epoch` values yielded by the poll (the completions
reported to the caller of `next_completed_epoch`). -/

inductive GraphOp where
  | issue : Barrier → List ActorId → Finset TableId → GraphOp
  | collect : ActorId → EpochPair → GraphOp
  | poll : GraphOp
  | popCompleted : Nat → GraphOp
deriving DecidableEq

def applyOp (s : PGState) : GraphOp → Option (PGState × List Nat)
  | .issue b actors tables =>
    match s.transform_to_issued b actors tables with
    | .ok s1 => some (s1, [])
    | .panicked _ => none
  | .collect actor_id epoch =>
    match s.collect actor_id epoch with
    | .ok s1 => some (s1, [])
    | .panicked _ => none
  | .poll =>
    match s.poll_next_completed_barrier with
    | none => some (s, [])
    | some (.ok (b, s1)) => some (s1, [b.epoch.prev])
    | some (.panicked _) => none
  | .popCompleted prev_epoch =>
    match s.pop_completed_epoch prev_epoch with
    | .error _ => some (s, [])
    | .ok (_, s1) => some (s1, [])

def runOps (s : PGState) : List GraphOp → Option (PGState × List Nat)
  | [] => some (s, [])
  | op :: rest =>
    match applyOp s op with
    | none => none
    | some (s1, d) =>
      match runOps s1 rest with
      | none => none
      | some (s2, ys) => some (s2, d ++ ys)

/-- The `prev` epochs of the `transform_to_issued` calls of a trace, in
order. -/
def issuePrevs : List GraphOp → List Nat
  | [] => []
  | .issue b _ _ :: rest => b.epoch.prev :: issuePrevs rest
  | _ :: rest => issuePrevs rest

/-- The futures enqueued by a step from `s` to `s1` (the queue only grows at
the back). -/
def newFutures (s s1 : PGState) : List AwaitEpochCompletedFuture :=
  s1.await_epoch_completed_futures.drop s.await_epoch_completed_futures.length

def futPrevs (fs : List AwaitEpochCompletedFuture) : List Nat :=
  fs.map (fun f => f.barrier.epoch.prev)

def qprevs (s : PGState) : List Nat := futPrevs s.await_epoch_completed_futures

/-- The table-id set a completion future built from the given map entry hands
to the storage sync: the stored `table_ids` for a `Checkpoint`, nothing
otherwise. -/
def entrySyncTables (o : Option BarrierState) : Option (Finset TableId) :=
  match o with
  | some bs =>
    match bs.inner with
    | .Issued ist =>
      match ist.kind with
      | .Checkpoint => ist.table_ids
      | _ => none
    | _ => none
  | none => none

/-- The table-id scope of a checkpoint sync as specified: the previous
`prev_barrier_table_ids` set when that entry's `curr` equals the checkpoint
barrier's `prev`, the empty set otherwise. -/
def checkpointScope (prev : Option (EpochPair × Finset TableId)) (barrier : Barrier) :
    Finset TableId :=
  match prev with
  | some (prev_epoch, prev_table_ids) =>
    if prev_epoch.curr = barrier.epoch.prev then prev_table_ids else ∅
  | none => ∅

def innerCompleted : ManagedBarrierStateInner → Bool
  | .Completed _ => true
  | _ => false

def ActorCollectRes.isPanicked : ActorCollectRes → Bool
  | .panicked _ => true
  | .ok _ _ _ => false

/-- The status after a successful `InflightActorState::collect`:
`IssuedFirst` transitions to `Running` at the last pending barrier's `prev`
epoch, `Running` is unchanged. -/
def statusAfterCollect : InflightActorStatus → InflightActorStatus
  | .IssuedFirst [] => .Running 0
  | .IssuedFirst (first :: more) => .Running (more.getLastD first).epoch.prev
  | .Running epoch => .Running epoch

/-- Well-formedness tying the status to the head of `inflight_barriers`: in
`IssuedFirst` the first pending barrier's `prev` epoch is `k` (an invariant
of reachable actor states, asserted by the source on collect). -/
def wfFirstPending (a : InflightActorState) (k : Nat) : Bool :=
  match a.status with
  | .IssuedFirst pending_barriers =>
    decide (pending_barriers.head?.map (fun b => b.epoch.prev) = some k)
  | .Running _ => true

/-! ### Concrete instances used by the witnesses and counterexamples -/

def bAt (p c : Nat) (kind : BarrierKind) : Barrier :=
  { epoch := { prev := p, curr := c }, kind := kind, mutation := none, all_stop_actors := none }

def c1bInit : Barrier := bAt 5 6 .Initial
def c1bCkpt : Barrier := bAt 3 4 .Checkpoint
def c1badOps : List GraphOp := [.issue c1bInit [] ∅, .issue c1bCkpt [] ∅, .poll, .poll]
def c1badRun : Option (PGState × List Nat) := runOps pgInit c1badOps
def c1badS : PGState := (c1badRun.getD (pgInit, [])).1
def c1okOps : List GraphOp := [.issue (bAt 0 1 .Initial) [] ∅, .poll]
def c1okRun : Option (PGState × List Nat) := runOps pgInit c1okOps
def c1okS : PGState := (c1okRun.getD (pgInit, [])).1
def c1okYs : List Nat := (c1okRun.getD (pgInit, [])).2

def c3a : InflightActorState :=
  { actor_id := 1, barrier_senders := [], inflight_barriers := [(1, 0)],
    status := .Running 1, is_stopping := true }
def c3b : Barrier := bAt 2 3 .Barrier
def c3low : Barrier := bAt 1 2 .Barrier

def c4b1 : Barrier := bAt 0 1 .Initial
def c4s1 : PGState := (pgInit.transform_to_issued c4b1 [] {1}).val
def c4b2 : Barrier := bAt 0 1 .Checkpoint
def c4res : PRes PGState := c4s1.transform_to_issued c4b2 [] {7}

def c6a : InflightActorState :=
  { actor_id := 7, barrier_senders := [], inflight_barriers := [(1, 0), (2, 0)],
    status := .IssuedFirst [bAt 1 2 .Barrier, bAt 2 3 .Barrier], is_stopping := false }

def c7bsC : BarrierState :=
  { barrier := bAt 5 6 .Checkpoint,
    inner := .Completed { sync_result := some {3}, create_mview_progress := [] } }
def c7bsA : BarrierState := { barrier := bAt 7 8 .Barrier, inner := .AllCollected }
def c7s : PGState := { pgInit with epoch_barrier_state_map := [(5, c7bsC), (7, c7bsA)] }
def c7r : BarrierCompleteResult := { sync_result := some {3}, create_mview_progress := [] }

def c8a : InflightActorState :=
  { actor_id := 4, barrier_senders := [], inflight_barriers := [(0, 0)],
    status := .IssuedFirst [bAt 0 1 .Initial], is_stopping := false }
def c8aR : InflightActorState := { c8a with status := .Running 0 }
def c8txOpen : Sender := { closed := false, sent := [] }
def c8txClosed : Sender := { closed := true, sent := [] }

def c10tx : Sender := { closed := true, sent := [] }
def c10a : InflightActorState :=
  { actor_id := 2, barrier_senders := [c10tx], inflight_barriers := [(1, 0)],
    status := .Running 1, is_stopping := false }
def c10b : Barrier := bAt 2 3 .Barrier

def c1badYs : List Nat := (c1badRun.getD (pgInit, [])).2

def c9b : Barrier := bAt 0 1 .Initial
def c9s1 : PGState := (pgInit.transform_to_issued c9b [] ∅).val

def c2s : PGState := { pgInit with prev_barrier_table_ids := some ({ prev := 0, curr := 1 }, {1}) }
def c2b : Barrier := bAt 1 2 .Checkpoint
def c2s1 : PGState := (c2s.transform_to_issued c2b [] {1, 2}).val
def c2fDefault : AwaitEpochCompletedFuture :=
  { barrier := c2b, sync_table_ids := none, create_mview_progress := [] }
def c2f : AwaitEpochCompletedFuture := (newFutures c2s c2s1).headD c2fDefault
def c2cbs : BarrierState :=
  { barrier := bAt 2 3 .Checkpoint,
    inner := .Issued
      { mutation := none, remaining_actors := {1}, table_ids := some {5}, kind := .Checkpoint } }
def c2cs : PGState := { pgInit with epoch_barrier_state_map := [(2, c2cbs)] }
def c2cs1 : PGState := (c2cs.collect 1 { prev := 2, curr := 3 }).val
def c2cf : AwaitEpochCompletedFuture := (newFutures c2cs c2cs1).headD c2fDefault

def c5g0 : ManagedBarrierState := { actor_states := [], graph_states := [(0, pgInit)] }
def c5b0 : Barrier := bAt 0 1 .Initial
def c5bStop : Barrier :=
  { epoch := { prev := 1, curr := 2 }, kind := .Barrier, mutation := none,
    all_stop_actors := some [1] }
def c5req0 : InjectBarrierRequest :=
  { partial_graph_id := 0, actor_ids_to_collect := [1], table_ids_to_sync := [],
    actors_to_build := [1], subscriptions_to_add := [], subscriptions_to_remove := [] }
def c5reqStop : InjectBarrierRequest :=
  { partial_graph_id := 0, actor_ids_to_collect := [1], table_ids_to_sync := [],
    actors_to_build := [], subscriptions_to_add := [], subscriptions_to_remove := [] }
def c5m1 : ManagedBarrierState := (c5g0.transform_to_issued c5b0 c5req0).val
def c5m2 : ManagedBarrierState := (c5m1.transform_to_issued c5bStop c5reqStop).val
def c5m3 : ManagedBarrierState := (c5m2.collect 1 { prev := 0, curr := 1 }).val
def c5m4 : ManagedBarrierState := (c5m3.collect 1 { prev := 1, curr := 2 }).val

/-! ### The completion-ordering invariant -/

def oleOpt (M : Option Nat) (k : Nat) : Prop :=
  match M with
  | none => False
  | some m => k ≤ m

def oltOpt (M : Option Nat) (p : Nat) : Prop :=
  match M with
  | none => True
  | some m => m < p

/-- The inductive invariant behind the completion-ordering claim, for a
partial graph state `s`, the list `ys` of `prev` epochs already yielded by
`poll_next_completed_barrier`, and an upper bound `M` on every epoch issued
so far (`none` before the first issue). -/
structure GInv (s : PGState) (ys : List Nat) (M : Option Nat) : Prop where
  sorted : (keysOf s.epoch_barrier_state_map).Pairwise (· < ·)
  km : ∀ e ∈ s.epoch_barrier_state_map, (e.2 : BarrierState).barrier.epoch.prev = e.1
  ysSorted : ys.Pairwise (· < ·)
  qSorted : (qprevs s).Pairwise (· < ·)
  ys_lt_q : ∀ y ∈ ys, ∀ q ∈ qprevs s, y < q
  q_ac : ∀ f ∈ s.await_epoch_completed_futures,
    lookupKey f.barrier.epoch.prev s.epoch_barrier_state_map =
      some { barrier := f.barrier, inner := .AllCollected }
  ys_lt_issued : ∀ y ∈ ys, ∀ e ∈ s.epoch_barrier_state_map,
    innerIssued (e.2 : BarrierState).inner = true → y < e.1
  niPrefix : ∀ e1 ∈ s.epoch_barrier_state_map, ∀ e2 ∈ s.epoch_barrier_state_map,
    innerIssued (e1.2 : BarrierState).inner = false →
    innerIssued (e2.2 : BarrierState).inner = true → e1.1 < e2.1
  keysLe : ∀ k ∈ keysOf s.epoch_barrier_state_map, oleOpt M k
  ysLe : ∀ y ∈ ys, oleOpt M y
  qLe : ∀ q ∈ qprevs s, oleOpt M q

/-! ### Association-list lemmas -/

theorem lookupKey_eq_none_iff {α : Type} (k : Nat) (l : List (Nat × α)) :
    lookupKey k l = none ↔ k ∉ keysOf l := by
  induction l with
  | nil => simp [lookupKey, keysOf]
  | cons e rest ih =>
    obtain ⟨k1, v1⟩ := e
    by_cases hk : k = k1
    · subst hk
      simp [lookupKey, keysOf]
    · simp [lookupKey, keysOf, hk] at ih ⊢
      exact ih

theorem mem_keysOf_insertSorted_self {α : Type} (k : Nat) (v : α) (l : List (Nat × α)) :
    k ∈ keysOf (insertSorted k v l) := by
  induction l with
  | nil => simp [insertSorted, keysOf]
  | cons e rest ih =>
    obtain ⟨k1, v1⟩ := e
    by_cases h1 : k < k1
    · simp [insertSorted, keysOf, h1]
    · by_cases h2 : k = k1
      · simp [insertSorted, keysOf, h1, h2]
      · simp [insertSorted, keysOf, h1, h2] at ih ⊢
        exact ih

/-! ### Claim theorems: error handling and actor-level operations -/

/-- Claim C7: `pop_completed_epoch` returns an error (not an abort) when no
entry exists for `prev_epoch`; returns `Ok(None)` leaving the entry in place
when the entry is not yet `Completed`; and when the entry is `Completed`
removes it and returns `Ok(Some(result))` with the stored result. -/
theorem c7_pop_completed_epoch_spec (s : PGState) (prev_epoch : Nat) :
    (lookupKey prev_epoch s.epoch_barrier_state_map = none →
      s.pop_completed_epoch prev_epoch = .error ()) ∧
    (∀ bs : BarrierState, lookupKey prev_epoch s.epoch_barrier_state_map = some bs →
      (innerCompleted bs.inner = false → s.pop_completed_epoch prev_epoch = .ok (none, s)) ∧
      (∀ r, bs.inner = .Completed r →
        s.pop_completed_epoch prev_epoch =
          .ok (some r, { s with epoch_barrier_state_map := eraseKey prev_epoch s.epoch_barrier_state_map }))) := by
  refine ⟨fun h => ?_, fun bs h => ⟨fun hnc => ?_, fun r hr => ?_⟩⟩
  · simp [PartialGraphManagedBarrierState.pop_completed_epoch, h]
  · cases hbs : bs.inner with
    | Issued ist => simp [PartialGraphManagedBarrierState.pop_completed_epoch, h, hbs]
    | AllCollected => simp [PartialGraphManagedBarrierState.pop_completed_epoch, h, hbs]
    | Completed r => rw [hbs] at hnc; simp [innerCompleted] at hnc
  · simp [PartialGraphManagedBarrierState.pop_completed_epoch, h, hr]

/-- Witness for C7 at a concrete graph state with a `Completed` entry at 5,
an `AllCollected` entry at 7, and no entry at 9. -/
theorem c7_pop_completed_epoch_spec_witness :
    c7s.pop_completed_epoch 9 = .error () ∧
    c7s.pop_completed_epoch 7 = .ok (none, c7s) ∧
    c7s.pop_completed_epoch 5 =
      .ok (some c7r, { c7s with epoch_barrier_state_map := [(7, c7bsA)] }) :=
  ⟨(c7_pop_completed_epoch_spec c7s 9).1 (by decide),
   ((c7_pop_completed_epoch_spec c7s 7).2 c7bsA (by decide)).1 (by decide),
   ((c7_pop_completed_epoch_spec c7s 5).2 c7bsC (by decide)).2 c7r rfl⟩

/-- Claim C8: `register_barrier_sender` succeeds only in `IssuedFirst`: it
replays every pending barrier on `tx` in issue order (a closed channel makes
the call return a barrier-send error and the sender is not stored) and then
appends `tx` to `barrier_senders`; in `Running` it aborts as a programming
error. -/
theorem c8_register_barrier_sender_spec (a : InflightActorState) (tx : Sender) :
    (∀ epoch, a.status = .Running epoch → a.register_barrier_sender tx = .panicked a) ∧
    (∀ pending, a.status = .IssuedFirst pending →
      ((tx.closed = true ∧ pending ≠ []) → a.register_barrier_sender tx = .err a) ∧
      ((tx.closed = false ∨ pending = []) →
        a.register_barrier_sender tx =
          .ok { a with barrier_senders := a.barrier_senders ++ [{ tx with sent := tx.sent ++ pending }] })) := by
  refine ⟨fun epoch h => ?_, fun pending h => ⟨fun hfail => ?_, fun hok => ?_⟩⟩
  · simp [InflightActorState.register_barrier_sender, h]
  · obtain ⟨hc, hne⟩ := hfail
    simp [InflightActorState.register_barrier_sender, h, hc, hne]
  · rcases hok with hc | hnil
    · simp [InflightActorState.register_barrier_sender, h, hc]
    · subst hnil
      simp [InflightActorState.register_barrier_sender, h]

/-- Witness for C8: replay of the single pending barrier on an open sender,
the send error on a closed sender, and the abort in `Running`. -/
theorem c8_register_barrier_sender_spec_witness :
    c8a.register_barrier_sender c8txOpen =
      .ok { c8a with barrier_senders := [{ closed := false, sent := [bAt 0 1 .Initial] }] } ∧
    c8a.register_barrier_sender c8txClosed = .err c8a ∧
    c8aR.register_barrier_sender c8txOpen = .panicked c8aR :=
  ⟨((c8_register_barrier_sender_spec c8a c8txOpen).2 [bAt 0 1 .Initial] rfl).2 (Or.inl rfl),
   ((c8_register_barrier_sender_spec c8a c8txClosed).2 [bAt 0 1 .Initial] rfl).1
     ⟨rfl, by decide⟩,
   (c8_register_barrier_sender_spec c8aR c8txOpen).1 0 rfl⟩

/-- Claim C10: when `issue_barrier` returns a barrier-send error (a
registered sender's channel is closed), the actor's recorded state is
unchanged: no entry is added to `inflight_barriers`, the status is not
updated, and `is_stopping` is not set, because all channel sends happen
before any of those fields is mutated. -/
theorem c10_send_error_leaves_state_unchanged (a a1 : InflightActorState)
    (partial_graph_id : PartialGraphId) (b : Barrier) (is_stop : Bool)
    (h : a.issue_barrier partial_graph_id b is_stop = .err a1) :
    a1.inflight_barriers = a.inflight_barriers ∧ a1.status = a.status ∧
      a1.is_stopping = a.is_stopping := by
  unfold InflightActorState.issue_barrier at h
  cases hmax : a.status.max_issued_epoch with
  | none => rw [hmax] at h; cases h
  | some m =>
    rw [hmax] at h
    simp only at h
    by_cases hle : b.epoch.prev ≤ m
    · rw [if_pos hle] at h; cases h
    · rw [if_neg hle] at h
      cases hsend : sendToAll b a.barrier_senders with
      | error senders1 =>
        rw [hsend] at h
        simp only at h
        cases h
        exact ⟨rfl, rfl, rfl⟩
      | ok senders1 =>
        rw [hsend] at h
        simp only at h
        by_cases hmem : b.epoch.prev ∈ keysOf a.inflight_barriers
        · rw [if_pos hmem] at h; cases h
        · rw [if_neg hmem] at h
          cases hst : a.status with
          | IssuedFirst pending_barriers =>
            rw [hst] at h
            simp only at h
            cases is_stop with
            | true =>
              by_cases hstop : a.is_stopping
              · simp only [hstop, if_pos rfl] at h
                cases h
              · simp only [hstop] at h
                cases h
            | false => cases h
          | Running epoch =>
            rw [hst] at h
            simp only at h
            cases is_stop with
            | true =>
              by_cases hstop : a.is_stopping
              · simp only [hstop, if_pos rfl] at h
                cases h
              · simp only [hstop] at h
                cases h
            | false => cases h

/-- Counterexample to claim C3 as stated: `c3a` has `is_stopping` already
set, yet `issue_barrier` with `is_stop = false` and a fresh epoch is not
rejected — it succeeds and mutates the state (the `!is_stopping` assert in
the source runs only under `is_stop`). -/
theorem c3_counterexample_stopping_actor_accepts_barrier :
    c3a.is_stopping = true ∧
    (c3a.issue_barrier 0 c3b false).isOk = true ∧
    (c3a.issue_barrier 0 c3b false).val.inflight_barriers ≠ c3a.inflight_barriers := by
  decide

/-- Claim C3 (amended): `issue_barrier` aborts, without mutating the state,
whenever `barrier.epoch.prev` is not strictly greater than the maximum
previously issued `prev` epoch.  The `!is_stopping` precondition is enforced
only when `is_stop` is true: such a call on an already-stopping actor aborts,
but only after the sends and the `inflight_barriers`/status updates have
happened; a call with `is_stop = false` on a stopping actor is accepted. -/
theorem c3_issue_barrier_preconditions_amended :
    (∀ (a : InflightActorState) (pg : PartialGraphId) (b : Barrier) (is_stop : Bool) (m : Nat),
      a.status.max_issued_epoch = some m → b.epoch.prev ≤ m →
      a.issue_barrier pg b is_stop = .panicked a) ∧
    (∀ (a : InflightActorState) (pg : PartialGraphId) (b : Barrier) (m : Nat)
        (senders1 : List Sender),
      a.status.max_issued_epoch = some m → m < b.epoch.prev →
      sendToAll b a.barrier_senders = .ok senders1 →
      b.epoch.prev ∉ keysOf a.inflight_barriers →
      a.is_stopping = true →
      (a.issue_barrier pg b true).isPanicked = true ∧
      b.epoch.prev ∈ keysOf (a.issue_barrier pg b true).val.inflight_barriers) ∧
    (∀ (a : InflightActorState) (pg : PartialGraphId) (b : Barrier) (m : Nat)
        (senders1 : List Sender),
      a.status.max_issued_epoch = some m → m < b.epoch.prev →
      sendToAll b a.barrier_senders = .ok senders1 →
      b.epoch.prev ∉ keysOf a.inflight_barriers →
      (a.issue_barrier pg b false).isOk = true) := by
  refine ⟨fun a pg b is_stop m hmax hle => ?_,
    fun a pg b m senders1 hmax hlt hsend hmem hstop => ?_,
    fun a pg b m senders1 hmax hlt hsend hmem => ?_⟩
  · unfold InflightActorState.issue_barrier
    rw [hmax]
    simp only
    rw [if_pos hle]
  · unfold InflightActorState.issue_barrier
    rw [hmax]
    simp only
    rw [if_neg (by omega), hsend]
    simp only
    rw [if_neg hmem]
    cases hst : a.status with
    | IssuedFirst pending_barriers =>
      simp only [hst, hstop, if_pos rfl]
      exact ⟨rfl, mem_keysOf_insertSorted_self _ _ _⟩
    | Running epoch =>
      simp only [hst, hstop, if_pos rfl]
      exact ⟨rfl, mem_keysOf_insertSorted_self _ _ _⟩
  · unfold InflightActorState.issue_barrier
    rw [hmax]
    simp only
    rw [if_neg (by omega), hsend]
    simp only
    rw [if_neg hmem]
    cases hst : a.status with
    | IssuedFirst pending_barriers => simp only [hst]; rfl
    | Running epoch => simp only [hst]; rfl

/-- Witness for the amended C3 at concrete actors: the epoch abort leaves the
state unchanged, the double-stop abort happens with the barrier already
recorded, and a barrier with `is_stop = false` is accepted by a stopping
actor. -/
theorem c3_issue_barrier_preconditions_amended_witness :
    c3a.issue_barrier 0 c3low false = .panicked c3a ∧
    ((c3a.issue_barrier 0 c3b true).isPanicked = true ∧
      2 ∈ keysOf (c3a.issue_barrier 0 c3b true).val.inflight_barriers) ∧
    (c3a.issue_barrier 0 c3b false).isOk = true :=
  ⟨c3_issue_barrier_preconditions_amended.1 c3a 0 c3low false 1 rfl (by decide),
   c3_issue_barrier_preconditions_amended.2.1 c3a 0 c3b 1 [] rfl (by decide) rfl
     (by decide) rfl,
   c3_issue_barrier_preconditions_amended.2.2 c3a 0 c3b 1 [] rfl (by decide) rfl
     (by decide)⟩

/-- Counterexample to claim C4 as stated: after `Initial(prev = 0)` was
issued with no actors (hence immediately collected), re-issuing `prev = 0`
as a `Checkpoint` barrier does abort, but `prev_barrier_table_ids` has
already been replaced by the duplicate barrier's own epoch and table set, so
the observable graph state is not unchanged. -/
theorem c4_counterexample_checkpoint_dup_updates_table_ids :
    (pgInit.transform_to_issued c4b1 [] {1}).isOk = true ∧
    lookupKey 0 c4s1.epoch_barrier_state_map = some { barrier := c4b1, inner := .AllCollected } ∧
    c4res.isPanicked = true ∧
    c4res.val.prev_barrier_table_ids ≠ c4s1.prev_barrier_table_ids := by
  decide

/-- Claim C4 (amended): re-issuing a barrier whose `prev` epoch already has
an entry in `epoch_barrier_state_map` aborts, and the failed call does not
modify `epoch_barrier_state_map`; `prev_barrier_table_ids`, however, may
already have been updated by the kind-specific bookkeeping that runs before
the duplicate check (a duplicate `Checkpoint` barrier replaces it with its
own epoch and announced table set). -/
theorem c4_duplicate_issue_panics_map_unchanged (s : PGState) (b : Barrier)
    (actors : List ActorId) (tables : Finset TableId)
    (h : b.epoch.prev ∈ keysOf s.epoch_barrier_state_map) :
    (s.transform_to_issued b actors tables).isPanicked = true ∧
    (s.transform_to_issued b actors tables).val.epoch_barrier_state_map
      = s.epoch_barrier_state_map := by
  unfold PartialGraphManagedBarrierState.transform_to_issued
  cases hup : updatePrevTableIds b tables s.prev_barrier_table_ids with
  | none => exact ⟨rfl, rfl⟩
  | some pr =>
    obtain ⟨new_prev, issued_table_ids⟩ := pr
    simp only
    cases hl : lookupKey b.epoch.prev s.epoch_barrier_state_map with
    | none => exact absurd ((lookupKey_eq_none_iff _ _).mp hl) (by simpa using h)
    | some bs => exact ⟨rfl, rfl⟩

/-- Witness for the amended C4: the duplicate `Checkpoint` at `prev = 0`
aborts with the epoch map untouched. -/
theorem c4_duplicate_issue_panics_map_unchanged_witness :
    c4res.isPanicked = true ∧
    c4res.val.epoch_barrier_state_map = c4s1.epoch_barrier_state_map :=
  c4_duplicate_issue_panics_map_unchanged c4s1 c4b2 [] {7} (by decide)

/-- Claim C6: on an actor with non-empty `inflight_barriers`, `collect`
removes the smallest `prev_epoch` key and aborts unless it equals
`epoch.prev`; an `IssuedFirst` status transitions to `Running` at the last
pending barrier's `prev` epoch; the call returns the partial-graph id stored
under the popped key together with `is_finished`, true iff the remaining
`inflight_barriers` is empty and `is_stopping` is set. -/
theorem c6_actor_collect_spec (a : InflightActorState) (epoch : EpochPair) (k : Nat)
    (pg : PartialGraphId) (rest : List (Nat × PartialGraphId))
    (hq : a.inflight_barriers = (k, pg) :: rest)
    (hmin : ∀ e ∈ rest, k < e.1)
    (hwf : wfFirstPending a k = true) :
    (k ≠ epoch.prev → a.collect epoch = .panicked { a with inflight_barriers := rest }) ∧
    (k = epoch.prev → a.collect epoch =
      .ok pg (rest.isEmpty && a.is_stopping)
        { a with inflight_barriers := rest, status := statusAfterCollect a.status }) := by
  constructor
  · intro hne
    unfold InflightActorState.collect
    rw [hq]
    simp only
    rw [if_pos hne]
  · intro heq
    unfold InflightActorState.collect
    rw [hq]
    simp only
    rw [if_neg (by simpa using heq)]
    cases hst : a.status with
    | Running ep => simp only [hst]; rfl
    | IssuedFirst pending =>
      unfold wfFirstPending at hwf
      rw [hst] at hwf
      simp only [decide_eq_true_eq] at hwf
      cases pending with
      | nil => simp at hwf
      | cons first more =>
        simp only [List.head?, Option.map_some] at hwf
        have hfp : first.epoch.prev = k := by
          injection hwf
        simp only [hst]
        rw [if_neg (by simp [hfp])]
        simp [statusAfterCollect]

/-- Witness for C6 at a concrete actor with two inflight barriers: a matching
collect pops the smallest key and enters `Running` at the last pending
epoch; a mismatched epoch aborts. -/
theorem c6_actor_collect_spec_witness :
    c6a.collect { prev := 1, curr := 2 } =
      .ok 0 false { c6a with inflight_barriers := [(2, 0)], status := .Running 2 } ∧
    c6a.collect { prev := 5, curr := 6 } =
      .panicked { c6a with inflight_barriers := [(2, 0)] } :=
  ⟨(c6_actor_collect_spec c6a { prev := 1, curr := 2 } 1 0 [(2, 0)] rfl (by decide)
      (by decide)).2 rfl,
   (c6_actor_collect_spec c6a { prev := 5, curr := 6 } 1 0 [(2, 0)] rfl (by decide)
      (by decide)).1 (by decide)⟩

/-- Witness for C10: a concrete actor whose only registered sender is closed;
the issue call returns a send error and the three fields are unchanged. -/
theorem c10_send_error_leaves_state_unchanged_witness :
    (c10a.issue_barrier 0 c10b false).val.inflight_barriers = c10a.inflight_barriers ∧
    (c10a.issue_barrier 0 c10b false).val.status = c10a.status ∧
    (c10a.issue_barrier 0 c10b false).val.is_stopping = c10a.is_stopping :=
  c10_send_error_leaves_state_unchanged c10a ((c10a.issue_barrier 0 c10b false).val) 0 c10b
    false (by decide)

/-! ### Lemmas about the `may_have_collected_all` walk -/

theorem forall2_mem_right {α β : Type} {R : α → β → Prop} :
    ∀ {l1 : List α} {l2 : List β}, List.Forall₂ R l1 l2 → ∀ b ∈ l2, ∃ a ∈ l1, R a b := by
  intro l1 l2 h
  induction h with
  | nil => intro b hb; cases hb
  | cons hr _ ih =>
    intro b hb
    rcases List.mem_cons.mp hb with heq | hb
    · subst heq
      exact ⟨_, List.mem_cons_self _ _, hr⟩
    · obtain ⟨a, ha, har⟩ := ih b hb
      exact ⟨a, List.mem_cons_of_mem _ ha, har⟩

theorem mkCompleteFuture_barrier {b : Barrier} {kind : BarrierKind}
    {t : Option (Finset TableId)} {p : List (ActorId × Nat)} {f : AwaitEpochCompletedFuture}
    (h : mkCompleteFuture b kind t p = some f) : f.barrier = b := by
  cases kind with
  | Unspecified => cases h
  | Initial => cases h; rfl
  | Barrier => cases h; rfl
  | Checkpoint =>
    cases t with
    | none => cases h
    | some ts => cases h; rfl

theorem mkCompleteFuture_sync {ist : IssuedState} {b : Barrier}
    {p : List (ActorId × Nat)} {f : AwaitEpochCompletedFuture}
    (h : mkCompleteFuture b ist.kind ist.table_ids p = some f) :
    f.sync_table_ids = entrySyncTables (some ⟨f.barrier, .Issued ist⟩) := by
  unfold entrySyncTables
  cases hk : ist.kind with
  | Unspecified => rw [hk] at h; cases h
  | Initial => rw [hk] at h; cases h; simp [hk]
  | Barrier => rw [hk] at h; cases h; simp [hk]
  | Checkpoint =>
    rw [hk] at h
    cases ht : ist.table_ids with
    | none => rw [ht] at h; cases h
    | some ts => rw [ht] at h; cases h; simp [hk, ht]

/-- The walk preserves the key sequence of the map. -/
theorem mhcaGo_keys :
    ∀ {m : List (Nat × BarrierState)} {prog : List (Nat × List (ActorId × Nat))}
      {m1 : List (Nat × BarrierState)} {p1 : List (Nat × List (ActorId × Nat))}
      {fs : List AwaitEpochCompletedFuture},
      mhcaGo m prog = .ok (m1, p1, fs) → keysOf m1 = keysOf m := by
  intro m
  induction m with
  | nil =>
    intro prog m1 p1 fs h
    cases h
    rfl
  | cons e rest ih =>
    obtain ⟨k, bs⟩ := e
    intro prog m1 p1 fs h
    simp only [mhcaGo] at h
    cases hbs : bs.inner with
    | Issued ist =>
      rw [hbs] at h
      simp only at h
      by_cases hrem : ist.remaining_actors = ∅
      · rw [if_pos hrem] at h
        cases hmk : mkCompleteFuture bs.barrier ist.kind ist.table_ids
            ((lookupKey bs.barrier.epoch.curr prog).getD []) with
        | none => rw [hmk] at h; cases h
        | some fut =>
          rw [hmk] at h
          cases hrec : mhcaGo rest (eraseKey bs.barrier.epoch.curr prog) with
          | panicked t => rw [hrec] at h; cases h
          | ok t =>
            obtain ⟨m1t, p1t, fst⟩ := t
            rw [hrec] at h
            cases h
            have hk := ih hrec
            simp only [keysOf] at hk ⊢
            simp [hk]
      · rw [if_neg hrem] at h
        cases h
        rfl
    | AllCollected =>
      rw [hbs] at h
      simp only at h
      cases hrec : mhcaGo rest prog with
      | panicked t => rw [hrec] at h; cases h
      | ok t =>
        obtain ⟨m1t, p1t, fst⟩ := t
        rw [hrec] at h
        cases h
        have hk := ih hrec
        simp only [keysOf] at hk ⊢
        simp [hk]
    | Completed r =>
      rw [hbs] at h
      simp only at h
      cases hrec : mhcaGo rest prog with
      | panicked t => rw [hrec] at h; cases h
      | ok t =>
        obtain ⟨m1t, p1t, fst⟩ := t
        rw [hrec] at h
        cases h
        have hk := ih hrec
        simp only [keysOf] at hk ⊢
        simp [hk]

/-- Every future the walk enqueues comes from an `Issued` entry of the input
map with empty `remaining_actors`, keyed by the future's barrier `prev`
epoch; its sync table set is the one stored in that entry, and the output
map holds the `AllCollected` version of the entry. -/
theorem mhcaGo_futures :
    ∀ {m : List (Nat × BarrierState)} {prog p1 : List (Nat × List (ActorId × Nat))}
      {m1 : List (Nat × BarrierState)} {fs : List AwaitEpochCompletedFuture},
      (keysOf m).Pairwise (· < ·) →
      (∀ e ∈ m, (e.2 : BarrierState).barrier.epoch.prev = e.1) →
      mhcaGo m prog = .ok (m1, p1, fs) →
      ∀ f ∈ fs, ∃ ist : IssuedState,
        (f.barrier.epoch.prev, (⟨f.barrier, .Issued ist⟩ : BarrierState)) ∈ m ∧
        ist.remaining_actors = ∅ ∧
        f.sync_table_ids = entrySyncTables (some ⟨f.barrier, .Issued ist⟩) ∧
        lookupKey f.barrier.epoch.prev m1 = some ⟨f.barrier, .AllCollected⟩ := by
  intro m
  induction m with
  | nil =>
    intro prog p1 m1 fs _ _ h
    cases h
    intro f hf
    cases hf
  | cons e rest ih =>
    obtain ⟨k, bs⟩ := e
    obtain ⟨bbar, binner⟩ := bs
    intro prog p1 m1 fs hs hkm h
    simp only [keysOf, List.map_cons] at hs
    obtain ⟨hlt, hs'⟩ := List.pairwise_cons.mp hs
    have hkm' : ∀ e ∈ rest, (e.2 : BarrierState).barrier.epoch.prev = e.1 :=
      fun e he => hkm e (List.mem_cons_of_mem _ he)
    have hkmhead : bbar.epoch.prev = k := hkm (k, ⟨bbar, binner⟩) (List.mem_cons_self _ _)
    simp only [mhcaGo] at h
    cases binner with
    | Issued ist =>
      simp only at h
      by_cases hrem : ist.remaining_actors = ∅
      · rw [if_pos hrem] at h
        cases hmk : mkCompleteFuture bbar ist.kind ist.table_ids
            ((lookupKey bbar.epoch.curr prog).getD []) with
        | none => rw [hmk] at h; cases h
        | some fut =>
          rw [hmk] at h
          cases hrec : mhcaGo rest (eraseKey bbar.epoch.curr prog) with
          | panicked t => rw [hrec] at h; cases h
          | ok t =>
            obtain ⟨m1t, p1t, fst⟩ := t
            rw [hrec] at h
            cases h
            intro f hf
            rcases List.mem_cons.mp hf with heq | hf
            · subst heq
              have hbar : f.barrier = bbar := mkCompleteFuture_barrier hmk
              have hprev : f.barrier.epoch.prev = k := by rw [hbar, hkmhead]
              refine ⟨ist, ?_, hrem, ?_, ?_⟩
              · rw [hprev, hbar]
                exact List.mem_cons_self _ _
              · exact mkCompleteFuture_sync hmk
              · rw [hprev, hbar]
                simp [lookupKey]
            · obtain ⟨ist', hmem', hrem', hsync', hlook'⟩ := ih hs' hkm' hrec f hf
              have hfk : f.barrier.epoch.prev ∈ keysOf rest := by
                simpa [keysOf] using List.mem_map_of_mem Prod.fst hmem'
              have hne : f.barrier.epoch.prev ≠ k := (hlt _ hfk).ne'
              refine ⟨ist', List.mem_cons_of_mem _ hmem', hrem', hsync', ?_⟩
              simp only [lookupKey, if_neg hne]
              exact hlook'
      · rw [if_neg hrem] at h
        cases h
        intro f hf
        cases hf
    | AllCollected =>
      simp only at h
      cases hrec : mhcaGo rest prog with
      | panicked t => rw [hrec] at h; cases h
      | ok t =>
        obtain ⟨m1t, p1t, fst⟩ := t
        rw [hrec] at h
        cases h
        intro f hf
        obtain ⟨ist', hmem', hrem', hsync', hlook'⟩ := ih hs' hkm' hrec f hf
        have hfk : f.barrier.epoch.prev ∈ keysOf rest := by
          simpa [keysOf] using List.mem_map_of_mem Prod.fst hmem'
        have hne : f.barrier.epoch.prev ≠ k := (hlt _ hfk).ne'
        refine ⟨ist', List.mem_cons_of_mem _ hmem', hrem', hsync', ?_⟩
        simp only [lookupKey, if_neg hne]
        exact hlook'
    | Completed r =>
      simp only at h
      cases hrec : mhcaGo rest prog with
      | panicked t => rw [hrec] at h; cases h
      | ok t =>
        obtain ⟨m1t, p1t, fst⟩ := t
        rw [hrec] at h
        cases h
        intro f hf
        obtain ⟨ist', hmem', hrem', hsync', hlook'⟩ := ih hs' hkm' hrec f hf
        have hfk : f.barrier.epoch.prev ∈ keysOf rest := by
          simpa [keysOf] using List.mem_map_of_mem Prod.fst hmem'
        have hne : f.barrier.epoch.prev ≠ k := (hlt _ hfk).ne'
        refine ⟨ist', List.mem_cons_of_mem _ hmem', hrem', hsync', ?_⟩
        simp only [lookupKey, if_neg hne]
        exact hlook'

theorem mem_keysOf_insertSorted {α : Type} (x k : Nat) (v : α) (l : List (Nat × α)) :
    x ∈ keysOf (insertSorted k v l) ↔ x = k ∨ x ∈ keysOf l := by
  induction l with
  | nil => simp [insertSorted, keysOf]
  | cons e rest ih =>
    obtain ⟨k1, v1⟩ := e
    by_cases h1 : k < k1
    · simp [insertSorted, keysOf, h1]
    · by_cases h2 : k = k1
      · subst h2
        simp [insertSorted, keysOf, h1]
      · simp only [insertSorted, if_neg h1, if_neg h2]
        simp only [keysOf, List.map_cons, List.mem_cons]
        rw [show (List.map Prod.fst (insertSorted k v rest) : List Nat)
          = keysOf (insertSorted k v rest) from rfl, ih]
        tauto

theorem mem_insertSorted {α : Type} (e : Nat × α) (k : Nat) (v : α) (l : List (Nat × α))
    (hk : k ∉ keysOf l) : e ∈ insertSorted k v l ↔ e = (k, v) ∨ e ∈ l := by
  induction l with
  | nil => simp [insertSorted]
  | cons e1 rest ih =>
    obtain ⟨k1, v1⟩ := e1
    simp only [keysOf, List.map_cons, List.mem_cons] at hk
    push_neg at hk
    obtain ⟨hk1, hkrest⟩ := hk
    by_cases h1 : k < k1
    · simp [insertSorted, h1]
    · simp only [insertSorted, if_neg h1, if_neg hk1]
      simp only [List.mem_cons]
      rw [ih hkrest]
      tauto

theorem lookupKey_insertSorted_self {α : Type} (k : Nat) (v : α) (l : List (Nat × α)) :
    lookupKey k (insertSorted k v l) = some v := by
  induction l with
  | nil => simp [insertSorted, lookupKey]
  | cons e rest ih =>
    obtain ⟨k1, v1⟩ := e
    by_cases h1 : k < k1
    · simp [insertSorted, h1, lookupKey]
    · by_cases h2 : k = k1
      · simp [insertSorted, h1, h2, lookupKey]
      · simp [insertSorted, h1, h2, lookupKey, ih]

theorem sorted_insertSorted {α : Type} (k : Nat) (v : α) (l : List (Nat × α))
    (hs : (keysOf l).Pairwise (· < ·)) (hk : k ∉ keysOf l) :
    (keysOf (insertSorted k v l)).Pairwise (· < ·) := by
  induction l with
  | nil => simp [insertSorted, keysOf]
  | cons e rest ih =>
    obtain ⟨k1, v1⟩ := e
    simp only [keysOf, List.map_cons] at hs
    obtain ⟨hlt1, hs'⟩ := List.pairwise_cons.mp hs
    simp only [keysOf, List.map_cons, List.mem_cons] at hk
    push_neg at hk
    obtain ⟨hk1, hkrest⟩ := hk
    by_cases h1 : k < k1
    · simp only [insertSorted, if_pos h1, keysOf, List.map_cons]
      refine List.pairwise_cons.mpr ⟨?_, hs⟩
      intro b hb
      rcases List.mem_cons.mp hb with rfl | hb
      · exact h1
      · exact h1.trans (hlt1 b hb)
    · rw [insertSorted, if_neg h1, if_neg hk1]
      simp only [keysOf, List.map_cons]
      refine List.pairwise_cons.mpr ⟨?_, ih hs' hkrest⟩
      intro b hb
      simp only [show List.map Prod.fst (insertSorted k v rest) = keysOf (insertSorted k v rest)
        from rfl] at hb
      rcases (mem_keysOf_insertSorted b k v rest).mp hb with rfl | hb
      · omega
      · exact hlt1 b hb

theorem keysOf_setKey {α : Type} (k : Nat) (v : α) (l : List (Nat × α)) :
    keysOf (setKey k v l) = keysOf l := by
  induction l with
  | nil => rfl
  | cons e rest ih =>
    obtain ⟨k1, v1⟩ := e
    by_cases h : k = k1
    · subst h; simp [setKey, keysOf]
    · simp [setKey, h, keysOf] at ih ⊢
      exact ih

theorem mem_setKey {α : Type} (e : Nat × α) (k : Nat) (v : α) (l : List (Nat × α))
    (h : e ∈ setKey k v l) : e = (k, v) ∨ e ∈ l := by
  induction l with
  | nil => cases h
  | cons e1 rest ih =>
    obtain ⟨k1, v1⟩ := e1
    by_cases hk : k = k1
    · subst hk
      rw [setKey, if_pos rfl] at h
      rcases List.mem_cons.mp h with rfl | h
      · exact Or.inl rfl
      · exact Or.inr (List.mem_cons_of_mem _ h)
    · rw [setKey, if_neg hk] at h
      rcases List.mem_cons.mp h with rfl | h
      · exact Or.inr (List.mem_cons_self _ _)
      · rcases ih h with h1 | h1
        · exact Or.inl h1
        · exact Or.inr (List.mem_cons_of_mem _ h1)

theorem lookupKey_setKey_self {α : Type} (k : Nat) (v w : α) (l : List (Nat × α))
    (h : lookupKey k l = some w) : lookupKey k (setKey k v l) = some v := by
  induction l with
  | nil => cases h
  | cons e rest ih =>
    obtain ⟨k1, v1⟩ := e
    by_cases hk : k = k1
    · subst hk; simp [setKey, lookupKey]
    · rw [lookupKey, if_neg hk] at h
      rw [setKey, if_neg hk, lookupKey, if_neg hk]
      exact ih h

theorem lookupKey_setKey_ne {α : Type} (k1 k : Nat) (v : α) (l : List (Nat × α))
    (hne : k1 ≠ k) : lookupKey k1 (setKey k v l) = lookupKey k1 l := by
  induction l with
  | nil => rfl
  | cons e rest ih =>
    obtain ⟨k2, v2⟩ := e
    by_cases hk : k = k2
    · subst hk
      rw [setKey, if_pos rfl, lookupKey, if_neg hne, lookupKey, if_neg hne]
    · rw [setKey, if_neg hk]
      by_cases hk1 : k1 = k2
      · subst hk1; simp [lookupKey]
      · rw [lookupKey, if_neg hk1, lookupKey, if_neg hk1]
        exact ih

theorem lookupKey_of_mem_nodup {α : Type} (k : Nat) (v : α) (l : List (Nat × α))
    (hnd : (keysOf l).Nodup) (h : (k, v) ∈ l) : lookupKey k l = some v := by
  induction l with
  | nil => cases h
  | cons e rest ih =>
    obtain ⟨k1, v1⟩ := e
    simp only [keysOf, List.map_cons, List.nodup_cons] at hnd
    obtain ⟨hk1, hnd'⟩ := hnd
    rcases List.mem_cons.mp h with heq | hmem
    · cases heq
      simp [lookupKey]
    · have hne : k ≠ k1 := by
        intro hkk
        subst hkk
        exact hk1 (List.mem_map_of_mem Prod.fst hmem)
      rw [lookupKey, if_neg hne]
      exact ih hnd' hmem

theorem mem_of_lookupKey {α : Type} (k : Nat) (v : α) (l : List (Nat × α))
    (h : lookupKey k l = some v) : (k, v) ∈ l := by
  induction l with
  | nil => cases h
  | cons e rest ih =>
    obtain ⟨k1, v1⟩ := e
    by_cases hk : k = k1
    · subst hk
      rw [lookupKey, if_pos rfl] at h
      cases h
      exact List.mem_cons_self _ _
    · rw [lookupKey, if_neg hk] at h
      exact List.mem_cons_of_mem _ (ih h)

theorem lookupKey_eraseKey_ne {α : Type} (k1 k : Nat) (l : List (Nat × α))
    (hne : k1 ≠ k) : lookupKey k1 (eraseKey k l) = lookupKey k1 l := by
  induction l with
  | nil => rfl
  | cons e rest ih =>
    obtain ⟨k2, v2⟩ := e
    by_cases hk : k = k2
    · subst hk
      rw [eraseKey, if_pos rfl, lookupKey, if_neg hne]
    · rw [eraseKey, if_neg hk]
      by_cases hk1 : k1 = k2
      · subst hk1; simp [lookupKey]
      · rw [lookupKey, if_neg hk1, lookupKey, if_neg hk1]
        exact ih

theorem eraseKey_sublist {α : Type} (k : Nat) (l : List (Nat × α)) :
    List.Sublist (eraseKey k l) l := by
  induction l with
  | nil => simp [eraseKey]
  | cons e rest ih =>
    obtain ⟨k1, v1⟩ := e
    by_cases hk : k = k1
    · rw [eraseKey, if_pos hk]
      exact List.sublist_cons_self _ _
    · rw [eraseKey, if_neg hk]
      exact List.Sublist.cons₂ _ ih

/-- Entries that are already `AllCollected`/`Completed` are passed through
unchanged by the walk. -/
theorem mhcaGo_nonIssued_mem :
    ∀ {m : List (Nat × BarrierState)} {prog p1 : List (Nat × List (ActorId × Nat))}
      {m1 : List (Nat × BarrierState)} {fs : List AwaitEpochCompletedFuture},
      mhcaGo m prog = .ok (m1, p1, fs) →
      ∀ e ∈ m, innerIssued e.2.inner = false → e ∈ m1 := by
  intro m
  induction m with
  | nil =>
    intro prog p1 m1 fs h e he
    cases he
  | cons e0 rest ih =>
    obtain ⟨k, bs⟩ := e0
    intro prog p1 m1 fs h e he hni
    simp only [mhcaGo] at h
    cases hbs : bs.inner with
    | Issued ist =>
      rw [hbs] at h
      simp only at h
      by_cases hrem : ist.remaining_actors = ∅
      · rw [if_pos hrem] at h
        cases hmk : mkCompleteFuture bs.barrier ist.kind ist.table_ids
            ((lookupKey bs.barrier.epoch.curr prog).getD []) with
        | none => rw [hmk] at h; cases h
        | some fut =>
          rw [hmk] at h
          cases hrec : mhcaGo rest (eraseKey bs.barrier.epoch.curr prog) with
          | panicked t => rw [hrec] at h; cases h
          | ok t =>
            obtain ⟨m1t, p1t, fst⟩ := t
            rw [hrec] at h
            cases h
            rcases List.mem_cons.mp he with heq | he
            · exfalso
              subst heq
              rw [hbs] at hni
              simp [innerIssued] at hni
            · exact List.mem_cons_of_mem _ (ih hrec e he hni)
      · rw [if_neg hrem] at h
        cases h
        exact he
    | AllCollected =>
      rw [hbs] at h
      simp only at h
      cases hrec : mhcaGo rest prog with
      | panicked t => rw [hrec] at h; cases h
      | ok t =>
        obtain ⟨m1t, p1t, fst⟩ := t
        rw [hrec] at h
        cases h
        rcases List.mem_cons.mp he with heq | he
        · subst heq
          exact List.mem_cons_self _ _
        · exact List.mem_cons_of_mem _ (ih hrec e he hni)
    | Completed r =>
      rw [hbs] at h
      simp only at h
      cases hrec : mhcaGo rest prog with
      | panicked t => rw [hrec] at h; cases h
      | ok t =>
        obtain ⟨m1t, p1t, fst⟩ := t
        rw [hrec] at h
        cases h
        rcases List.mem_cons.mp he with heq | he
        · subst heq
          exact List.mem_cons_self _ _
        · exact List.mem_cons_of_mem _ (ih hrec e he hni)

/-- An entry of the output map that is still `Issued` was in the input map,
unchanged, under the same key. -/
theorem mhcaGo_issued_lookup :
    ∀ {m : List (Nat × BarrierState)} {prog p1 : List (Nat × List (ActorId × Nat))}
      {m1 : List (Nat × BarrierState)} {fs : List AwaitEpochCompletedFuture},
      mhcaGo m prog = .ok (m1, p1, fs) →
      ∀ (k1 : Nat) (bs1 : BarrierState), lookupKey k1 m1 = some bs1 →
        innerIssued bs1.inner = true → lookupKey k1 m = some bs1 := by
  intro m
  induction m with
  | nil =>
    intro prog p1 m1 fs h k1 bs1 hl
    cases h
    cases hl
  | cons e0 rest ih =>
    obtain ⟨k, bs⟩ := e0
    intro prog p1 m1 fs h k1 bs1 hl hiss
    simp only [mhcaGo] at h
    cases hbs : bs.inner with
    | Issued ist =>
      rw [hbs] at h
      simp only at h
      by_cases hrem : ist.remaining_actors = ∅
      · rw [if_pos hrem] at h
        cases hmk : mkCompleteFuture bs.barrier ist.kind ist.table_ids
            ((lookupKey bs.barrier.epoch.curr prog).getD []) with
        | none => rw [hmk] at h; cases h
        | some fut =>
          rw [hmk] at h
          cases hrec : mhcaGo rest (eraseKey bs.barrier.epoch.curr prog) with
          | panicked t => rw [hrec] at h; cases h
          | ok t =>
            obtain ⟨m1t, p1t, fst⟩ := t
            rw [hrec] at h
            cases h
            by_cases hk1 : k1 = k
            · rw [lookupKey, if_pos hk1] at hl
              cases hl
              simp [innerIssued] at hiss
            · rw [lookupKey, if_neg hk1] at hl
              rw [lookupKey, if_neg hk1]
              exact ih hrec k1 bs1 hl hiss
      · rw [if_neg hrem] at h
        cases h
        exact hl
    | AllCollected =>
      rw [hbs] at h
      simp only at h
      cases hrec : mhcaGo rest prog with
      | panicked t => rw [hrec] at h; cases h
      | ok t =>
        obtain ⟨m1t, p1t, fst⟩ := t
        rw [hrec] at h
        cases h
        by_cases hk1 : k1 = k
        · rw [lookupKey, if_pos hk1] at hl
          rw [lookupKey, if_pos hk1]
          exact hl
        · rw [lookupKey, if_neg hk1] at hl
          rw [lookupKey, if_neg hk1]
          exact ih hrec k1 bs1 hl hiss
    | Completed r =>
      rw [hbs] at h
      simp only at h
      cases hrec : mhcaGo rest prog with
      | panicked t => rw [hrec] at h; cases h
      | ok t =>
        obtain ⟨m1t, p1t, fst⟩ := t
        rw [hrec] at h
        cases h
        by_cases hk1 : k1 = k
        · rw [lookupKey, if_pos hk1] at hl
          rw [lookupKey, if_pos hk1]
          exact hl
        · rw [lookupKey, if_neg hk1] at hl
          rw [lookupKey, if_neg hk1]
          exact ih hrec k1 bs1 hl hiss

/-- If an `Issued` entry has empty `remaining_actors` and every entry with a
smaller key is already `AllCollected`/`Completed`, the walk flips it and
enqueues its completion future. -/
theorem mhcaGo_flips_first :
    ∀ {m : List (Nat × BarrierState)} {prog p1 : List (Nat × List (ActorId × Nat))}
      {m1 : List (Nat × BarrierState)} {fs : List AwaitEpochCompletedFuture}
      {k : Nat} {bs : BarrierState} {ist : IssuedState},
      (keysOf m).Pairwise (· < ·) →
      mhcaGo m prog = .ok (m1, p1, fs) →
      (k, bs) ∈ m → bs.inner = .Issued ist → ist.remaining_actors = ∅ →
      (∀ e ∈ m, e.1 < k → innerIssued e.2.inner = false) →
      lookupKey k m1 = some ⟨bs.barrier, .AllCollected⟩ ∧ ∃ f ∈ fs, f.barrier = bs.barrier := by
  intro m
  induction m with
  | nil =>
    intro prog p1 m1 fs k bs ist _ h hmem
    cases hmem
  | cons e0 rest ih =>
    obtain ⟨k0, bs0⟩ := e0
    intro prog p1 m1 fs k bs ist hs h hmem hbs hrem hearlier
    simp only [keysOf, List.map_cons] at hs
    obtain ⟨hlt, hs'⟩ := List.pairwise_cons.mp hs
    simp only [mhcaGo] at h
    rcases List.mem_cons.mp hmem with heq | hmem
    · injection heq with heq1 heq2
      subst heq1
      subst heq2
      rw [hbs] at h
      simp only at h
      rw [if_pos hrem] at h
      cases hmk : mkCompleteFuture bs.barrier ist.kind ist.table_ids
          ((lookupKey bs.barrier.epoch.curr prog).getD []) with
      | none => rw [hmk] at h; cases h
      | some fut =>
        rw [hmk] at h
        cases hrec : mhcaGo rest (eraseKey bs.barrier.epoch.curr prog) with
        | panicked t => rw [hrec] at h; cases h
        | ok t =>
          obtain ⟨m1t, p1t, fst⟩ := t
          rw [hrec] at h
          cases h
          refine ⟨?_, fut, List.mem_cons_self _ _, mkCompleteFuture_barrier hmk⟩
          simp [lookupKey]
    · have hkmem : k ∈ keysOf rest := by
        simpa [keysOf] using List.mem_map_of_mem Prod.fst hmem
      have hk0k : k0 < k := hlt _ (by simpa [keysOf] using hkmem)
      have hni0 : innerIssued bs0.inner = false :=
        hearlier (k0, bs0) (List.mem_cons_self _ _) hk0k
      have hearlier' : ∀ e ∈ rest, e.1 < k → innerIssued e.2.inner = false :=
        fun e he hlt1 => hearlier e (List.mem_cons_of_mem _ he) hlt1
      cases hbs0 : bs0.inner with
      | Issued ist0 =>
        rw [hbs0] at hni0
        simp [innerIssued] at hni0
      | AllCollected =>
        rw [hbs0] at h
        simp only at h
        cases hrec : mhcaGo rest prog with
        | panicked t => rw [hrec] at h; cases h
        | ok t =>
          obtain ⟨m1t, p1t, fst⟩ := t
          rw [hrec] at h
          cases h
          obtain ⟨hlook, f, hf, hfb⟩ := ih hs' hrec hmem hbs hrem hearlier'
          refine ⟨?_, f, hf, hfb⟩
          rw [lookupKey, if_neg (by omega)]
          exact hlook
      | Completed r =>
        rw [hbs0] at h
        simp only at h
        cases hrec : mhcaGo rest prog with
        | panicked t => rw [hrec] at h; cases h
        | ok t =>
          obtain ⟨m1t, p1t, fst⟩ := t
          rw [hrec] at h
          cases h
          obtain ⟨hlook, f, hf, hfb⟩ := ih hs' hrec hmem hbs hrem hearlier'
          refine ⟨?_, f, hf, hfb⟩
          rw [lookupKey, if_neg (by omega)]
          exact hlook

/-- Claim C9: when all strictly earlier epochs are already
`AllCollected`/`Completed`, issuing a barrier with an empty
`actor_ids_to_collect` set immediately transitions the new entry to
`AllCollected` and enqueues its completion future, without any `collect`
call. -/
theorem c9_empty_actor_set_immediate_all_collected (s : PGState) (b : Barrier)
    (tables : Finset TableId) (s1 : PGState)
    (hs : (keysOf s.epoch_barrier_state_map).Pairwise (· < ·))
    (hpre : ∀ e ∈ s.epoch_barrier_state_map, e.1 < b.epoch.prev →
      innerIssued (e.2 : BarrierState).inner = false)
    (h : s.transform_to_issued b [] tables = .ok s1) :
    lookupKey b.epoch.prev s1.epoch_barrier_state_map =
      some ⟨b, .AllCollected⟩ ∧
    s1.await_epoch_completed_futures =
      s.await_epoch_completed_futures ++ newFutures s s1 ∧
    b.epoch.prev ∈ futPrevs (newFutures s s1) := by
  unfold PartialGraphManagedBarrierState.transform_to_issued at h
  cases hup : updatePrevTableIds b tables s.prev_barrier_table_ids with
  | none => rw [hup] at h; cases h
  | some pr =>
    obtain ⟨new_prev, issued_table_ids⟩ := pr
    rw [hup] at h
    simp only at h
    cases hl : lookupKey b.epoch.prev s.epoch_barrier_state_map with
    | some bs => rw [hl] at h; cases h
    | none =>
      rw [hl] at h
      simp only at h
      unfold PartialGraphManagedBarrierState.may_have_collected_all at h
      simp only at h
      cases hmgo : mhcaGo
          (insertSorted b.epoch.prev
            { barrier := b,
              inner := .Issued
                { mutation := b.mutation, remaining_actors := List.toFinset [],
                  table_ids := issued_table_ids, kind := b.kind } }
            s.epoch_barrier_state_map)
          s.create_mview_progress with
      | panicked t => rw [hmgo] at h; cases h
      | ok t =>
        obtain ⟨mm, pp, fs⟩ := t
        rw [hmgo] at h
        cases h
        have hfresh : b.epoch.prev ∉ keysOf s.epoch_barrier_state_map :=
          (lookupKey_eq_none_iff _ _).mp hl
        have hs2 := sorted_insertSorted b.epoch.prev
          ({ barrier := b,
             inner := .Issued
               { mutation := b.mutation, remaining_actors := List.toFinset [],
                 table_ids := issued_table_ids, kind := b.kind } } : BarrierState)
          s.epoch_barrier_state_map hs hfresh
        have hmem2 := mem_of_lookupKey _ _ _ (lookupKey_insertSorted_self b.epoch.prev
          ({ barrier := b,
             inner := .Issued
               { mutation := b.mutation, remaining_actors := List.toFinset [],
                 table_ids := issued_table_ids, kind := b.kind } } : BarrierState)
          s.epoch_barrier_state_map)
        have hearlier2 : ∀ e ∈ insertSorted b.epoch.prev
            ({ barrier := b,
               inner := .Issued
                 { mutation := b.mutation, remaining_actors := List.toFinset [],
                   table_ids := issued_table_ids, kind := b.kind } } : BarrierState)
            s.epoch_barrier_state_map,
            e.1 < b.epoch.prev → innerIssued e.2.inner = false := by
          intro e he hlt1
          rcases (mem_insertSorted e b.epoch.prev _ _ hfresh).mp he with heq | he
          · subst heq
            omega
          · exact hpre e he hlt1
        obtain ⟨hlook, f, hf, hfb⟩ := mhcaGo_flips_first hs2 hmgo hmem2 rfl (by simp)
          hearlier2
        refine ⟨hlook, ?_, ?_⟩
        · simp [newFutures, List.drop_left]
        · simp only [newFutures, List.drop_left]
          have hmm := List.mem_map_of_mem (fun f1 : AwaitEpochCompletedFuture =>
            f1.barrier.epoch.prev) hf
          simp only at hmm
          rw [hfb] at hmm
          exact hmm

/-- Witness for C9: an `Initial` barrier at `prev = 0` with no actors on the
empty graph state is immediately `AllCollected` and its completion future is
enqueued. -/
theorem c9_empty_actor_set_immediate_all_collected_witness :
    lookupKey 0 c9s1.epoch_barrier_state_map = some ⟨c9b, .AllCollected⟩ ∧
    c9s1.await_epoch_completed_futures =
      pgInit.await_epoch_completed_futures ++ newFutures pgInit c9s1 ∧
    0 ∈ futPrevs (newFutures pgInit c9s1) :=
  c9_empty_actor_set_immediate_all_collected pgInit c9b ∅ c9s1 (by decide)
    (by intro e he; cases he) (by decide)

/-- Claim C2: a `Checkpoint` barrier issued via `transform_to_issued` stores,
and its completion future syncs, the table-id set recorded for the preceding
epoch range — the previous `prev_barrier_table_ids` entry when that entry's
`curr` equals the checkpoint barrier's `prev`, the empty set otherwise —
never the set announced with the checkpoint barrier itself.  The first three
conjuncts characterise the issue step (queue growth, the sync table set of a
future enqueued for this barrier, and the table set stored while the entry is
still `Issued`); the last conjunct shows that any completion future enqueued
by a later `collect` syncs exactly the table set stored in the entry it
flips. -/
theorem c2_checkpoint_sync_scope (s : PGState) (b : Barrier) (actors : List ActorId)
    (tables : Finset TableId) (s1 : PGState)
    (hk : b.kind = .Checkpoint)
    (hs : (keysOf s.epoch_barrier_state_map).Pairwise (· < ·))
    (hkm : ∀ e ∈ s.epoch_barrier_state_map, (e.2 : BarrierState).barrier.epoch.prev = e.1)
    (h : s.transform_to_issued b actors tables = .ok s1) :
    (s1.await_epoch_completed_futures =
      s.await_epoch_completed_futures ++ newFutures s s1 ∧
     (∀ f ∈ newFutures s s1, f.barrier.epoch.prev = b.epoch.prev →
       f.sync_table_ids = some (checkpointScope s.prev_barrier_table_ids b)) ∧
     (∀ (bs : BarrierState) (ist : IssuedState),
       lookupKey b.epoch.prev s1.epoch_barrier_state_map = some bs →
       bs.inner = .Issued ist →
       ist.table_ids = some (checkpointScope s.prev_barrier_table_ids b))) ∧
    (∀ (s2 s3 : PGState) (aid : ActorId) (ep : EpochPair),
      (keysOf s2.epoch_barrier_state_map).Pairwise (· < ·) →
      (∀ e ∈ s2.epoch_barrier_state_map, (e.2 : BarrierState).barrier.epoch.prev = e.1) →
      s2.collect aid ep = .ok s3 →
      ∀ f ∈ newFutures s2 s3,
        f.sync_table_ids = entrySyncTables (lookupKey f.barrier.epoch.prev
          s2.epoch_barrier_state_map)) := by
  constructor
  · have hup' : updatePrevTableIds b tables s.prev_barrier_table_ids =
        some (some (b.epoch, tables), some (checkpointScope s.prev_barrier_table_ids b)) := by
      unfold updatePrevTableIds checkpointScope
      rw [hk]
    unfold PartialGraphManagedBarrierState.transform_to_issued at h
    rw [hup'] at h
    simp only at h
    cases hl : lookupKey b.epoch.prev s.epoch_barrier_state_map with
    | some bs => rw [hl] at h; cases h
    | none =>
      rw [hl] at h
      simp only at h
      unfold PartialGraphManagedBarrierState.may_have_collected_all at h
      simp only at h
      cases hmgo : mhcaGo
          (insertSorted b.epoch.prev
            { barrier := b,
              inner := .Issued
                { mutation := b.mutation, remaining_actors := actors.toFinset,
                  table_ids := some (checkpointScope s.prev_barrier_table_ids b),
                  kind := b.kind } }
            s.epoch_barrier_state_map)
          s.create_mview_progress with
      | panicked t => rw [hmgo] at h; cases h
      | ok t =>
        obtain ⟨mm, pp, fs⟩ := t
        rw [hmgo] at h
        cases h
        have hfresh : b.epoch.prev ∉ keysOf s.epoch_barrier_state_map :=
          (lookupKey_eq_none_iff _ _).mp hl
        have hs2 := sorted_insertSorted b.epoch.prev
          ({ barrier := b,
             inner := .Issued
               { mutation := b.mutation, remaining_actors := actors.toFinset,
                 table_ids := some (checkpointScope s.prev_barrier_table_ids b),
                 kind := b.kind } } : BarrierState)
          s.epoch_barrier_state_map hs hfresh
        have hkm2 : ∀ e ∈ insertSorted b.epoch.prev
            ({ barrier := b,
               inner := .Issued
                 { mutation := b.mutation, remaining_actors := actors.toFinset,
                   table_ids := some (checkpointScope s.prev_barrier_table_ids b),
                   kind := b.kind } } : BarrierState)
            s.epoch_barrier_state_map,
            (e.2 : BarrierState).barrier.epoch.prev = e.1 := by
          intro e he
          rcases (mem_insertSorted e b.epoch.prev _ _ hfresh).mp he with heq | he
          · subst heq
            rfl
          · exact hkm e he
        refine ⟨by simp [newFutures, List.drop_left], ?_, ?_⟩
        · intro f hf hfp
          simp only [newFutures, List.drop_left] at hf
          obtain ⟨ist', hmem', _, hsync', _⟩ := mhcaGo_futures hs2 hkm2 hmgo f hf
          rw [hfp] at hmem'
          rcases (mem_insertSorted _ b.epoch.prev _ _ hfresh).mp hmem' with heq | hbad
          · have hbar : f.barrier = b := congrArg BarrierState.barrier (congrArg Prod.snd heq)
            have hinner : ManagedBarrierStateInner.Issued ist' = .Issued
                { mutation := b.mutation, remaining_actors := actors.toFinset,
                  table_ids := some (checkpointScope s.prev_barrier_table_ids b),
                  kind := b.kind } :=
              congrArg BarrierState.inner (congrArg Prod.snd heq)
            injection hinner with hist
            rw [hsync', hist]
            simp [entrySyncTables, hk]
          · exact absurd (List.mem_map_of_mem Prod.fst hbad) hfresh
        · intro bs ist hlk hbsi
          have hiss : innerIssued bs.inner = true := by rw [hbsi]; rfl
          have hlk2 := mhcaGo_issued_lookup hmgo b.epoch.prev bs hlk hiss
          rw [lookupKey_insertSorted_self] at hlk2
          injection hlk2 with hbs
          rw [← hbs] at hbsi
          injection hbsi with hist
          rw [← hist]
  · intro s2 s3 aid ep hs2 hkm2 hcol f hf
    unfold PartialGraphManagedBarrierState.collect at hcol
    cases hl0 : lookupKey ep.prev s2.epoch_barrier_state_map with
    | none => rw [hl0] at hcol; cases hcol
    | some bs0 =>
      obtain ⟨b0bar, b0inner⟩ := bs0
      rw [hl0] at hcol
      simp only at hcol
      cases b0inner with
      | AllCollected => cases hcol
      | Completed r => cases hcol
      | Issued ist =>
        simp only at hcol
        by_cases hmemA : aid ∈ ist.remaining_actors
        · rw [if_pos hmemA] at hcol
          by_cases hcurr : b0bar.epoch.curr = ep.curr
          · rw [if_pos hcurr] at hcol
            unfold PartialGraphManagedBarrierState.may_have_collected_all at hcol
            simp only at hcol
            cases hmgo2 : mhcaGo
                (setKey ep.prev
                  { barrier := b0bar,
                    inner := .Issued { ist with remaining_actors := ist.remaining_actors.erase aid } }
                  s2.epoch_barrier_state_map)
                s2.create_mview_progress with
            | panicked t => rw [hmgo2] at hcol; cases hcol
            | ok t =>
              obtain ⟨mm2, pp2, fs2⟩ := t
              rw [hmgo2] at hcol
              cases hcol
              simp only [newFutures, List.drop_left] at hf
              have hsort1 : (keysOf (setKey ep.prev
                  ({ barrier := b0bar,
                     inner := .Issued { ist with remaining_actors := ist.remaining_actors.erase aid } } : BarrierState)
                  s2.epoch_barrier_state_map)).Pairwise (· < ·) := by
                rw [keysOf_setKey]
                exact hs2
              have hprev0 : b0bar.epoch.prev = ep.prev :=
                hkm2 (ep.prev, ⟨b0bar, .Issued ist⟩) (mem_of_lookupKey _ _ _ hl0)
              have hkm1 : ∀ e ∈ setKey ep.prev
                  ({ barrier := b0bar,
                     inner := .Issued { ist with remaining_actors := ist.remaining_actors.erase aid } } : BarrierState)
                  s2.epoch_barrier_state_map,
                  (e.2 : BarrierState).barrier.epoch.prev = e.1 := by
                intro e he
                rcases mem_setKey e _ _ _ he with heq | he
                · subst heq
                  exact hprev0
                · exact hkm2 e he
              obtain ⟨ist', hmem', _, hsync', _⟩ := mhcaGo_futures hsort1 hkm1 hmgo2 f hf
              rcases mem_setKey _ _ _ _ hmem' with heq | hmemS
              · injection heq with heq1 heq2
                injection heq2 with hbar hin
                injection hin with hist1
                rw [heq1, hl0, hsync', hist1]
                rfl
              · have hnd : (keysOf s2.epoch_barrier_state_map).Nodup :=
                  hs2.imp Nat.ne_of_lt
                rw [lookupKey_of_mem_nodup _ _ _ hnd hmemS]
                exact hsync'
          · rw [if_neg hcurr] at hcol; cases hcol
        · rw [if_neg hmemA] at hcol; cases hcol

/-- Witness for C2: a checkpoint at `(1,2)` announcing `{1, 2}` after a range
`((0,1), {1})`: the stored and synced set is `{1}` (the preceding range's
set); with a pending actor the stored `Issued.table_ids` is `{1}` as well;
and a collect-triggered completion syncs exactly the stored set. -/
theorem c2_checkpoint_sync_scope_witness :
    c2s1.await_epoch_completed_futures =
      c2s.await_epoch_completed_futures ++ newFutures c2s c2s1 ∧
    c2f.sync_table_ids = some (checkpointScope c2s.prev_barrier_table_ids c2b) ∧
    ({ mutation := none, remaining_actors := {3}, table_ids := some {1}, kind := .Checkpoint } : IssuedState).table_ids =
      some (checkpointScope c2s.prev_barrier_table_ids c2b) ∧
    c2cf.sync_table_ids =
      entrySyncTables (lookupKey c2cf.barrier.epoch.prev c2cs.epoch_barrier_state_map) :=
  ⟨(c2_checkpoint_sync_scope c2s c2b [] {1, 2} c2s1 rfl (by decide) (by decide)
      (by decide)).1.1,
   (c2_checkpoint_sync_scope c2s c2b [] {1, 2} c2s1 rfl (by decide) (by decide)
      (by decide)).1.2.1 c2f (by decide) (by decide),
   (c2_checkpoint_sync_scope c2s c2b [3] {1, 2}
      ((c2s.transform_to_issued c2b [3] {1, 2}).val) rfl (by decide) (by decide)
      (by decide)).1.2.2
     { barrier := c2b, inner := .Issued { mutation := none, remaining_actors := {3}, table_ids := some {1}, kind := .Checkpoint } }
     { mutation := none, remaining_actors := {3}, table_ids := some {1}, kind := .Checkpoint }
     (by decide) rfl,
   (c2_checkpoint_sync_scope c2s c2b [] {1, 2} c2s1 rfl (by decide) (by decide)
      (by decide)).2 c2cs c2cs1 1 { prev := 2, curr := 3 } (by decide) (by decide)
     (by decide) c2cf (by decide)⟩

/-! ### Lemmas for the manager-level claims -/

theorem mem_keysOf_of_lookup {α : Type} (k : Nat) (v : α) (l : List (Nat × α))
    (h : lookupKey k l = some v) : k ∈ keysOf l :=
  List.mem_map_of_mem Prod.fst (mem_of_lookupKey k v l h)

theorem not_mem_keysOf_eraseKey_self {α : Type} (k : Nat) (l : List (Nat × α))
    (hnd : (keysOf l).Nodup) : k ∉ keysOf (eraseKey k l) := by
  induction l with
  | nil => simp [eraseKey, keysOf]
  | cons e rest ih =>
    obtain ⟨k1, v1⟩ := e
    simp only [keysOf, List.map_cons, List.nodup_cons] at hnd
    obtain ⟨hk1, hnd'⟩ := hnd
    by_cases hk : k = k1
    · subst hk
      rw [eraseKey, if_pos rfl]
      exact hk1
    · rw [eraseKey, if_neg hk]
      simp only [keysOf, List.map_cons, List.mem_cons]
      push_neg
      exact ⟨hk, ih hnd'⟩

theorem mem_keysOf_eraseKey_ne {α : Type} (k1 k : Nat) (l : List (Nat × α))
    (hne : k1 ≠ k) : k1 ∈ keysOf (eraseKey k l) ↔ k1 ∈ keysOf l := by
  induction l with
  | nil => simp [eraseKey]
  | cons e rest ih =>
    obtain ⟨k2, v2⟩ := e
    by_cases hk : k = k2
    · subst hk
      rw [eraseKey, if_pos rfl]
      simp only [keysOf, List.map_cons, List.mem_cons]
      constructor
      · exact Or.inr
      · rintro (rfl | hm)
        · exact absurd rfl hne
        · exact hm
    · rw [eraseKey, if_neg hk]
      simp only [keysOf, List.map_cons, List.mem_cons] at ih ⊢
      rw [show (List.map Prod.fst (eraseKey k rest) : List Nat)
        = keysOf (eraseKey k rest) from rfl] at ih ⊢
      tauto

/-- Inversion of a successful `InflightActorState::collect`: `is_finished` is
computed from the popped state, and `is_stopping` is untouched. -/
theorem actor_collect_ok_inversion (a : InflightActorState) (ep : EpochPair)
    (pg : PartialGraphId) (fin : Bool) (a1 : InflightActorState)
    (h : a.collect ep = .ok pg fin a1) :
    fin = (a1.inflight_barriers.isEmpty && a1.is_stopping) ∧
    a1.is_stopping = a.is_stopping := by
  unfold InflightActorState.collect at h
  cases hq : a.inflight_barriers with
  | nil => rw [hq] at h; cases h
  | cons e rest =>
    obtain ⟨k0, pg0⟩ := e
    rw [hq] at h
    simp only at h
    by_cases hne : k0 ≠ ep.prev
    · rw [if_pos hne] at h; cases h
    · rw [if_neg hne] at h
      cases hst : a.status with
      | IssuedFirst pending =>
        rw [hst] at h
        simp only at h
        cases pending with
        | nil => cases h
        | cons first more =>
          simp only at h
          by_cases hfp : first.epoch.prev ≠ k0
          · rw [if_pos hfp] at h; cases h
          · rw [if_neg hfp] at h
            cases h
            exact ⟨rfl, rfl⟩
      | Running ep0 =>
        rw [hst] at h
        simp only at h
        cases h
        exact ⟨rfl, rfl⟩

/-- The build loop only appends actor states; existing keys survive in every
outcome. -/
theorem buildActors_keys :
    ∀ (todo : List ActorId) (pgid : PartialGraphId) (b : Barrier) (coll : List ActorId)
      (na : Finset ActorId) (states : List (ActorId × InflightActorState)),
      ∀ aid ∈ keysOf states,
        aid ∈ keysOf (PRes.val (buildActors pgid b coll todo na states)).2 := by
  intro todo
  induction todo with
  | nil =>
    intro pgid b coll na states aid hm
    simpa [buildActors, PRes.val] using hm
  | cons a0 rest ih =>
    intro pgid b coll na states aid hm
    unfold buildActors
    by_cases h1 : b.is_stop_actor a0 = true
    · rw [if_pos h1]
      exact hm
    · rw [if_neg h1]
      by_cases h2 : a0 ∈ na
      · rw [if_pos h2]
        exact hm
      · rw [if_neg h2]
        by_cases h3 : a0 ∉ coll
        · rw [if_pos h3]
          exact hm
        · rw [if_neg h3]
          by_cases h4 : a0 ∈ keysOf states
          · rw [if_pos h4]
            exact hm
          · rw [if_neg h4]
            refine ih pgid b coll _ _ aid ?_
            simp only [keysOf, List.map_append] at hm ⊢
            exact List.mem_append_left _ hm

/-- The issue loop only updates actor states in place; keys survive in every
outcome. -/
theorem issueAll_keys :
    ∀ (todo : List ActorId) (pgid : PartialGraphId) (b : Barrier) (na : Finset ActorId)
      (states : List (ActorId × InflightActorState)),
      ∀ aid ∈ keysOf states,
        aid ∈ keysOf (ERes.val (issueAll pgid b na todo states)) := by
  intro todo
  induction todo with
  | nil =>
    intro pgid b na states aid hm
    simpa [issueAll, ERes.val] using hm
  | cons a0 rest ih =>
    intro pgid b na states aid hm
    unfold issueAll
    by_cases h1 : a0 ∈ na
    · rw [if_pos h1]
      exact ih pgid b na states aid hm
    · rw [if_neg h1]
      cases hl : lookupKey a0 states with
      | none => exact hm
      | some a =>
        simp only []
        cases hib : a.issue_barrier pgid b (b.is_stop_actor a0) with
        | panicked a1 =>
          simp only [ERes.val]
          rw [keysOf_setKey]
          exact hm
        | err a1 =>
          simp only [ERes.val]
          rw [keysOf_setKey]
          exact hm
        | ok a1 =>
          have := ih pgid b na (setKey a0 a1 states) aid (by rw [keysOf_setKey]; exact hm)
          exact this

/-- Claim C5: an actor's entry leaves `actor_states` exactly at the
`ManagedBarrierState::collect` call whose actor-level collect reports
`is_finished` (its `inflight_barriers` became empty while `is_stopping` is
set), and never at any earlier point: a successful manager collect removes
the entry iff `is_finished`, `is_finished` holds iff the popped state is
empty with `is_stopping` set, other actors are untouched, and
`transform_to_issued` never removes an entry in any outcome. -/
theorem c5_actor_removed_exactly_when_finished :
    (∀ (m m1 : ManagedBarrierState) (aid : ActorId) (ep : EpochPair)
        (a a1 : InflightActorState) (pg : PartialGraphId) (fin : Bool),
      (keysOf m.actor_states).Nodup →
      lookupKey aid m.actor_states = some a →
      a.collect ep = .ok pg fin a1 →
      m.collect aid ep = .ok m1 →
      ((fin = true → aid ∉ keysOf m1.actor_states) ∧
       (fin = false → aid ∈ keysOf m1.actor_states) ∧
       (fin = true ↔ (a1.inflight_barriers = [] ∧ a.is_stopping = true)) ∧
       (∀ oid, oid ≠ aid → (oid ∈ keysOf m1.actor_states ↔ oid ∈ keysOf m.actor_states)))) ∧
    (∀ (m : ManagedBarrierState) (b : Barrier) (req : InjectBarrierRequest),
      ∀ aid ∈ keysOf m.actor_states,
        aid ∈ keysOf (ERes.val (m.transform_to_issued b req)).actor_states) := by
  constructor
  · intro m m1 aid ep a a1 pg fin hnd hl hacol hcolM
    obtain ⟨hfin, hstopeq⟩ := actor_collect_ok_inversion a ep pg fin a1 hacol
    unfold ManagedBarrierState.collect at hcolM
    rw [hl] at hcolM
    simp only [] at hcolM
    rw [hacol] at hcolM
    simp only [] at hcolM
    cases fin with
    | true =>
      simp only [if_pos rfl] at hcolM
      cases hg : lookupKey pg m.graph_states with
      | none => rw [hg] at hcolM; cases hcolM
      | some gs =>
        rw [hg] at hcolM
        simp only [] at hcolM
        cases hgc : gs.collect aid ep with
        | panicked gs1 => rw [hgc] at hcolM; cases hcolM
        | ok gs1 =>
          rw [hgc] at hcolM
          cases hcolM
          refine ⟨fun _ => ?_, fun hff => absurd hff (by simp), ?_, fun oid hne => ?_⟩
          · exact not_mem_keysOf_eraseKey_self aid m.actor_states hnd
          · constructor
            · intro _
              have hfin' : (a1.inflight_barriers.isEmpty && a1.is_stopping) = true := hfin.symm
              rw [Bool.and_eq_true] at hfin'
              obtain ⟨hq, hstp⟩ := hfin'
              rw [List.isEmpty_iff] at hq
              rw [← hstopeq]
              exact ⟨hq, hstp⟩
            · intro _
              rfl
          · exact mem_keysOf_eraseKey_ne oid aid m.actor_states hne
    | false =>
      rw [if_neg Bool.false_ne_true] at hcolM
      cases hg : lookupKey pg m.graph_states with
      | none => rw [hg] at hcolM; cases hcolM
      | some gs =>
        rw [hg] at hcolM
        simp only [] at hcolM
        cases hgc : gs.collect aid ep with
        | panicked gs1 => rw [hgc] at hcolM; cases hcolM
        | ok gs1 =>
          rw [hgc] at hcolM
          cases hcolM
          refine ⟨fun hff => absurd hff (by simp), fun _ => ?_, ?_, fun oid hne => ?_⟩
          · rw [keysOf_setKey]
            exact mem_keysOf_of_lookup aid a m.actor_states hl
          · constructor
            · intro hff
              exact absurd hff (by simp)
            · rintro ⟨hq, hstp⟩
              rw [hq] at hfin
              rw [hstopeq] at hfin
              rw [hstp] at hfin
              cases hfin
          · rw [keysOf_setKey]
  · intro m b req aid hm
    unfold ManagedBarrierState.transform_to_issued
    cases hg : lookupKey req.partial_graph_id m.graph_states with
    | none => exact hm
    | some gs =>
      simp only []
      cases hgt : ((gs.add_subscriptions req.subscriptions_to_add).remove_subscriptions
          req.subscriptions_to_remove).transform_to_issued b req.actor_ids_to_collect
          req.table_ids_to_sync.toFinset with
      | panicked gs1 => exact hm
      | ok gs1 =>
        simp only []
        cases hb : buildActors req.partial_graph_id b req.actor_ids_to_collect
            req.actors_to_build ∅ m.actor_states with
        | panicked t =>
          obtain ⟨na, states⟩ := t
          have hkb := buildActors_keys req.actors_to_build req.partial_graph_id b
            req.actor_ids_to_collect ∅ m.actor_states aid hm
          rw [hb] at hkb
          exact hkb
        | ok t =>
          obtain ⟨na, states⟩ := t
          have hkb := buildActors_keys req.actors_to_build req.partial_graph_id b
            req.actor_ids_to_collect ∅ m.actor_states aid hm
          rw [hb] at hkb
          simp only [PRes.val] at hkb
          have hki := issueAll_keys req.actor_ids_to_collect req.partial_graph_id b na
            states aid hkb
          simp only []
          cases hi : issueAll req.partial_graph_id b na req.actor_ids_to_collect states with
          | panicked states1 =>
            rw [hi] at hki
            exact hki
          | err states1 =>
            rw [hi] at hki
            exact hki
          | ok states1 =>
            rw [hi] at hki
            exact hki

/-- Witness for C5: actor 1 is built at the `Initial` barrier, receives an
all-stop barrier, survives the first (non-final) collect, and is removed
exactly at the collect of its stop barrier; the issue path never removes
it. -/
theorem c5_actor_removed_exactly_when_finished_witness :
    1 ∈ keysOf c5m3.actor_states ∧
    1 ∉ keysOf c5m4.actor_states ∧
    1 ∈ keysOf (ERes.val (c5m1.transform_to_issued c5bStop c5reqStop)).actor_states :=
  ⟨(c5_actor_removed_exactly_when_finished.1 c5m2 c5m3 1 { prev := 0, curr := 1 }
      { actor_id := 1, barrier_senders := [], inflight_barriers := [(0, 0), (1, 0)], status := .IssuedFirst [c5b0, c5bStop], is_stopping := true }
      { actor_id := 1, barrier_senders := [], inflight_barriers := [(1, 0)], status := .Running 1, is_stopping := true }
      0 false (by decide) (by decide) (by decide) (by decide)).2.1 rfl,
   (c5_actor_removed_exactly_when_finished.1 c5m3 c5m4 1 { prev := 1, curr := 2 }
      { actor_id := 1, barrier_senders := [], inflight_barriers := [(1, 0)], status := .Running 1, is_stopping := true }
      { actor_id := 1, barrier_senders := [], inflight_barriers := [], status := .Running 1, is_stopping := true }
      0 true (by decide) (by decide) (by decide) (by decide)).1 rfl,
   c5_actor_removed_exactly_when_finished.2 c5m1 c5bStop c5reqStop 1 (by decide)⟩

theorem lookupKey_insertSorted_ne {α : Type} (k1 k : Nat) (v : α) (l : List (Nat × α))
    (hne : k1 ≠ k) : lookupKey k1 (insertSorted k v l) = lookupKey k1 l := by
  induction l with
  | nil => simp [insertSorted, lookupKey, hne]
  | cons e rest ih =>
    obtain ⟨k2, v2⟩ := e
    by_cases h1 : k < k2
    · rw [insertSorted, if_pos h1, lookupKey, if_neg hne]
    · by_cases h2 : k = k2
      · subst h2
        rw [insertSorted, if_neg h1, if_pos rfl, lookupKey, if_neg hne, lookupKey, if_neg hne]
      · rw [insertSorted, if_neg h1, if_neg h2]
        by_cases h3 : k1 = k2
        · subst h3
          simp [lookupKey]
        · rw [lookupKey, if_neg h3, lookupKey, if_neg h3]
          exact ih

/-- The walk preserves the key-of-barrier invariant. -/
theorem mhcaGo_km :
    ∀ {m : List (Nat × BarrierState)} {prog p1 : List (Nat × List (ActorId × Nat))}
      {m1 : List (Nat × BarrierState)} {fs : List AwaitEpochCompletedFuture},
      mhcaGo m prog = .ok (m1, p1, fs) →
      (∀ e ∈ m, (e.2 : BarrierState).barrier.epoch.prev = e.1) →
      ∀ e ∈ m1, (e.2 : BarrierState).barrier.epoch.prev = e.1 := by
  intro m
  induction m with
  | nil =>
    intro prog p1 m1 fs h _ e he
    cases h
    cases he
  | cons e0 rest ih =>
    obtain ⟨k, bs⟩ := e0
    intro prog p1 m1 fs h hkm e he
    have hkm' : ∀ e ∈ rest, (e.2 : BarrierState).barrier.epoch.prev = e.1 :=
      fun e1 he1 => hkm e1 (List.mem_cons_of_mem _ he1)
    have hkhead : bs.barrier.epoch.prev = k := hkm (k, bs) (List.mem_cons_self _ _)
    simp only [mhcaGo] at h
    cases hbs : bs.inner with
    | Issued ist =>
      rw [hbs] at h
      simp only at h
      by_cases hrem : ist.remaining_actors = ∅
      · rw [if_pos hrem] at h
        cases hmk : mkCompleteFuture bs.barrier ist.kind ist.table_ids
            ((lookupKey bs.barrier.epoch.curr prog).getD []) with
        | none => rw [hmk] at h; cases h
        | some fut =>
          rw [hmk] at h
          cases hrec : mhcaGo rest (eraseKey bs.barrier.epoch.curr prog) with
          | panicked t => rw [hrec] at h; cases h
          | ok t =>
            obtain ⟨m1t, p1t, fst⟩ := t
            rw [hrec] at h
            cases h
            rcases List.mem_cons.mp he with heq | he
            · subst heq
              exact hkhead
            · exact ih hrec hkm' e he
      · rw [if_neg hrem] at h
        cases h
        exact hkm e he
    | AllCollected =>
      rw [hbs] at h
      simp only at h
      cases hrec : mhcaGo rest prog with
      | panicked t => rw [hrec] at h; cases h
      | ok t =>
        obtain ⟨m1t, p1t, fst⟩ := t
        rw [hrec] at h
        cases h
        rcases List.mem_cons.mp he with heq | he
        · subst heq
          exact hkhead
        · exact ih hrec hkm' e he
    | Completed r =>
      rw [hbs] at h
      simp only at h
      cases hrec : mhcaGo rest prog with
      | panicked t => rw [hrec] at h; cases h
      | ok t =>
        obtain ⟨m1t, p1t, fst⟩ := t
        rw [hrec] at h
        cases h
        rcases List.mem_cons.mp he with heq | he
        · subst heq
          exact hkhead
        · exact ih hrec hkm' e he

/-- An entry of the output map either occurs unchanged in the input map or is
a flip whose key is among the enqueued futures' `prev` epochs. -/
theorem mhcaGo_mem_cases :
    ∀ {m : List (Nat × BarrierState)} {prog p1 : List (Nat × List (ActorId × Nat))}
      {m1 : List (Nat × BarrierState)} {fs : List AwaitEpochCompletedFuture},
      mhcaGo m prog = .ok (m1, p1, fs) →
      (∀ e ∈ m, (e.2 : BarrierState).barrier.epoch.prev = e.1) →
      ∀ e ∈ m1, e ∈ m ∨ ((e.2 : BarrierState).inner = .AllCollected ∧
        e.1 ∈ futPrevs fs) := by
  intro m
  induction m with
  | nil =>
    intro prog p1 m1 fs h _ e he
    cases h
    cases he
  | cons e0 rest ih =>
    obtain ⟨k, bs⟩ := e0
    intro prog p1 m1 fs h hkm e he
    have hkm' : ∀ e ∈ rest, (e.2 : BarrierState).barrier.epoch.prev = e.1 :=
      fun e1 he1 => hkm e1 (List.mem_cons_of_mem _ he1)
    have hkhead : bs.barrier.epoch.prev = k := hkm (k, bs) (List.mem_cons_self _ _)
    simp only [mhcaGo] at h
    cases hbs : bs.inner with
    | Issued ist =>
      rw [hbs] at h
      simp only at h
      by_cases hrem : ist.remaining_actors = ∅
      · rw [if_pos hrem] at h
        cases hmk : mkCompleteFuture bs.barrier ist.kind ist.table_ids
            ((lookupKey bs.barrier.epoch.curr prog).getD []) with
        | none => rw [hmk] at h; cases h
        | some fut =>
          rw [hmk] at h
          cases hrec : mhcaGo rest (eraseKey bs.barrier.epoch.curr prog) with
          | panicked t => rw [hrec] at h; cases h
          | ok t =>
            obtain ⟨m1t, p1t, fst⟩ := t
            rw [hrec] at h
            cases h
            rcases List.mem_cons.mp he with heq | he
            · subst heq
              refine Or.inr ⟨rfl, ?_⟩
              have hfb : fut.barrier = bs.barrier := mkCompleteFuture_barrier hmk
              have : fut.barrier.epoch.prev ∈ futPrevs (fut :: fst) :=
                List.mem_map_of_mem _ (List.mem_cons_self _ _)
              rw [hfb, hkhead] at this
              exact this
            · rcases ih hrec hkm' e he with hm | ⟨hac, hp⟩
              · exact Or.inl (List.mem_cons_of_mem _ hm)
              · refine Or.inr ⟨hac, ?_⟩
                simp only [futPrevs, List.map_cons, List.mem_cons]
                right
                exact hp
      · rw [if_neg hrem] at h
        cases h
        exact Or.inl he
    | AllCollected =>
      rw [hbs] at h
      simp only at h
      cases hrec : mhcaGo rest prog with
      | panicked t => rw [hrec] at h; cases h
      | ok t =>
        obtain ⟨m1t, p1t, fst⟩ := t
        rw [hrec] at h
        cases h
        rcases List.mem_cons.mp he with heq | he
        · subst heq
          exact Or.inl (List.mem_cons_self _ _)
        · rcases ih hrec hkm' e he with hm | hflip
          · exact Or.inl (List.mem_cons_of_mem _ hm)
          · exact Or.inr hflip
    | Completed r =>
      rw [hbs] at h
      simp only at h
      cases hrec : mhcaGo rest prog with
      | panicked t => rw [hrec] at h; cases h
      | ok t =>
        obtain ⟨m1t, p1t, fst⟩ := t
        rw [hrec] at h
        cases h
        rcases List.mem_cons.mp he with heq | he
        · subst heq
          exact Or.inl (List.mem_cons_self _ _)
        · rcases ih hrec hkm' e he with hm | hflip
          · exact Or.inl (List.mem_cons_of_mem _ hm)
          · exact Or.inr hflip

/-- Every enqueued `prev` epoch is smaller than the key of every entry that
is still `Issued` after the walk. -/
theorem mhcaGo_issued_lt :
    ∀ {m : List (Nat × BarrierState)} {prog p1 : List (Nat × List (ActorId × Nat))}
      {m1 : List (Nat × BarrierState)} {fs : List AwaitEpochCompletedFuture},
      (keysOf m).Pairwise (· < ·) →
      (∀ e ∈ m, (e.2 : BarrierState).barrier.epoch.prev = e.1) →
      mhcaGo m prog = .ok (m1, p1, fs) →
      ∀ p ∈ futPrevs fs, ∀ e1 ∈ m1, innerIssued (e1.2 : BarrierState).inner = true →
        p < e1.1 := by
  intro m
  induction m with
  | nil =>
    intro prog p1 m1 fs _ _ h p hp
    cases h
    cases hp
  | cons e0 rest ih =>
    obtain ⟨k, bs⟩ := e0
    intro prog p1 m1 fs hs hkm h p hp e1 he1 hiss
    simp only [keysOf, List.map_cons] at hs
    obtain ⟨hlt, hs'⟩ := List.pairwise_cons.mp hs
    have hkm' : ∀ e ∈ rest, (e.2 : BarrierState).barrier.epoch.prev = e.1 :=
      fun e2 he2 => hkm e2 (List.mem_cons_of_mem _ he2)
    have hkhead : bs.barrier.epoch.prev = k := hkm (k, bs) (List.mem_cons_self _ _)
    simp only [mhcaGo] at h
    cases hbs : bs.inner with
    | Issued ist =>
      rw [hbs] at h
      simp only at h
      by_cases hrem : ist.remaining_actors = ∅
      · rw [if_pos hrem] at h
        cases hmk : mkCompleteFuture bs.barrier ist.kind ist.table_ids
            ((lookupKey bs.barrier.epoch.curr prog).getD []) with
        | none => rw [hmk] at h; cases h
        | some fut =>
          rw [hmk] at h
          cases hrec : mhcaGo rest (eraseKey bs.barrier.epoch.curr prog) with
          | panicked t => rw [hrec] at h; cases h
          | ok t =>
            obtain ⟨m1t, p1t, fst⟩ := t
            rw [hrec] at h
            cases h
            rcases List.mem_cons.mp he1 with heq | he1
            · subst heq
              simp [innerIssued] at hiss
            · have hkey1 : e1.1 ∈ keysOf rest := by
                rw [← mhcaGo_keys hrec]
                exact List.mem_map_of_mem Prod.fst he1
              rcases List.mem_cons.mp hp with hpk | hp
              · have hfb : fut.barrier = bs.barrier := mkCompleteFuture_barrier hmk
                simp only at hpk
                rw [hpk, hfb, hkhead]
                exact hlt _ hkey1
              · exact ih hs' hkm' hrec p hp e1 he1 hiss
      · rw [if_neg hrem] at h
        cases h
        cases hp
    | AllCollected =>
      rw [hbs] at h
      simp only at h
      cases hrec : mhcaGo rest prog with
      | panicked t => rw [hrec] at h; cases h
      | ok t =>
        obtain ⟨m1t, p1t, fst⟩ := t
        rw [hrec] at h
        cases h
        rcases List.mem_cons.mp he1 with heq | he1
        · subst heq
          rw [hbs] at hiss
          simp [innerIssued] at hiss
        · exact ih hs' hkm' hrec p hp e1 he1 hiss
    | Completed r =>
      rw [hbs] at h
      simp only at h
      cases hrec : mhcaGo rest prog with
      | panicked t => rw [hrec] at h; cases h
      | ok t =>
        obtain ⟨m1t, p1t, fst⟩ := t
        rw [hrec] at h
        cases h
        rcases List.mem_cons.mp he1 with heq | he1
        · subst heq
          rw [hbs] at hiss
          simp [innerIssued] at hiss
        · exact ih hs' hkm' hrec p hp e1 he1 hiss

/-- The `prev` epochs of the enqueued futures are strictly increasing in
enqueue order. -/
theorem mhcaGo_futPrevs_pairwise :
    ∀ {m : List (Nat × BarrierState)} {prog p1 : List (Nat × List (ActorId × Nat))}
      {m1 : List (Nat × BarrierState)} {fs : List AwaitEpochCompletedFuture},
      (keysOf m).Pairwise (· < ·) →
      (∀ e ∈ m, (e.2 : BarrierState).barrier.epoch.prev = e.1) →
      mhcaGo m prog = .ok (m1, p1, fs) →
      (futPrevs fs).Pairwise (· < ·) := by
  intro m
  induction m with
  | nil =>
    intro prog p1 m1 fs _ _ h
    cases h
    simp [futPrevs]
  | cons e0 rest ih =>
    obtain ⟨k, bs⟩ := e0
    intro prog p1 m1 fs hs hkm h
    simp only [keysOf, List.map_cons] at hs
    obtain ⟨hlt, hs'⟩ := List.pairwise_cons.mp hs
    have hkm' : ∀ e ∈ rest, (e.2 : BarrierState).barrier.epoch.prev = e.1 :=
      fun e2 he2 => hkm e2 (List.mem_cons_of_mem _ he2)
    have hkhead : bs.barrier.epoch.prev = k := hkm (k, bs) (List.mem_cons_self _ _)
    simp only [mhcaGo] at h
    cases hbs : bs.inner with
    | Issued ist =>
      rw [hbs] at h
      simp only at h
      by_cases hrem : ist.remaining_actors = ∅
      · rw [if_pos hrem] at h
        cases hmk : mkCompleteFuture bs.barrier ist.kind ist.table_ids
            ((lookupKey bs.barrier.epoch.curr prog).getD []) with
        | none => rw [hmk] at h; cases h
        | some fut =>
          rw [hmk] at h
          cases hrec : mhcaGo rest (eraseKey bs.barrier.epoch.curr prog) with
          | panicked t => rw [hrec] at h; cases h
          | ok t =>
            obtain ⟨m1t, p1t, fst⟩ := t
            rw [hrec] at h
            cases h
            simp only [futPrevs, List.map_cons]
            refine List.pairwise_cons.mpr ⟨?_, ih hs' hkm' hrec⟩
            intro q hq
            obtain ⟨f1, hf1, hfq⟩ := List.mem_map.mp hq
            obtain ⟨ist1, hmem1, _, _, _⟩ := mhcaGo_futures hs' hkm' hrec f1 hf1
            have hq1 : q ∈ keysOf rest := by
              rw [← hfq]
              exact List.mem_map_of_mem Prod.fst hmem1
            have hfb : fut.barrier = bs.barrier := mkCompleteFuture_barrier hmk
            rw [hfb, hkhead]
            exact hlt _ hq1
      · rw [if_neg hrem] at h
        cases h
        simp [futPrevs]
    | AllCollected =>
      rw [hbs] at h
      simp only at h
      cases hrec : mhcaGo rest prog with
      | panicked t => rw [hrec] at h; cases h
      | ok t =>
        obtain ⟨m1t, p1t, fst⟩ := t
        rw [hrec] at h
        cases h
        exact ih hs' hkm' hrec
    | Completed r =>
      rw [hbs] at h
      simp only at h
      cases hrec : mhcaGo rest prog with
      | panicked t => rw [hrec] at h; cases h
      | ok t =>
        obtain ⟨m1t, p1t, fst⟩ := t
        rw [hrec] at h
        cases h
        exact ih hs' hkm' hrec

/-- `may_have_collected_all` preserves the completion-ordering invariant. -/
theorem ginv_mhca (s : PGState) (ys : List Nat) (M : Option Nat) (s1 : PGState)
    (hinv : GInv s ys M) (h : s.may_have_collected_all = .ok s1) :
    GInv s1 ys M := by
  unfold PartialGraphManagedBarrierState.may_have_collected_all at h
  cases hmgo : mhcaGo s.epoch_barrier_state_map s.create_mview_progress with
  | panicked t => rw [hmgo] at h; cases h
  | ok t =>
    obtain ⟨mm, pp, fs⟩ := t
    rw [hmgo] at h
    cases h
    obtain ⟨hsorted, hkm, hysS, hqS, hylq, hqac, hyli, hpre, hkle, hyle, hqle⟩ := hinv
    have hkeys : keysOf mm = keysOf s.epoch_barrier_state_map := mhcaGo_keys hmgo
    have hnd1 : (keysOf mm).Nodup := by
      rw [hkeys]
      exact hsorted.imp Nat.ne_of_lt
    have hIssMem : ∀ e ∈ mm, innerIssued (e.2 : BarrierState).inner = true →
        e ∈ s.epoch_barrier_state_map := by
      intro e he hiss
      have hle : lookupKey e.1 mm = some e.2 := lookupKey_of_mem_nodup e.1 e.2 mm hnd1 he
      exact mem_of_lookupKey e.1 e.2 _ (mhcaGo_issued_lookup hmgo e.1 e.2 hle hiss)
    have hFutIss : ∀ p ∈ futPrevs fs,
        ∃ ist : IssuedState, ∃ bar : Barrier, bar.epoch.prev = p ∧
          (p, (⟨bar, .Issued ist⟩ : BarrierState)) ∈ s.epoch_barrier_state_map := by
      intro p hp
      obtain ⟨f1, hf1, hfp⟩ := List.mem_map.mp hp
      obtain ⟨ist1, hmem1, _, _, _⟩ := mhcaGo_futures hsorted hkm hmgo f1 hf1
      rw [hfp] at hmem1
      exact ⟨ist1, f1.barrier, hfp, hmem1⟩
    have hqmem : ∀ q ∈ qprevs s,
        ∃ bar : Barrier, bar.epoch.prev = q ∧
          (q, (⟨bar, .AllCollected⟩ : BarrierState)) ∈ s.epoch_barrier_state_map := by
      intro q hq
      obtain ⟨f0, hf0, hfq⟩ := List.mem_map.mp hq
      have := mem_of_lookupKey _ _ _ (hqac f0 hf0)
      rw [hfq] at this
      exact ⟨f0.barrier, hfq, this⟩
    have hq1eq : futPrevs (s.await_epoch_completed_futures ++ fs)
        = qprevs s ++ futPrevs fs := by
      simp [qprevs, futPrevs]
    refine ⟨?_, mhcaGo_km hmgo hkm, hysS, ?_, ?_, ?_, ?_, ?_, ?_, hyle, ?_⟩
    · show (keysOf mm).Pairwise (· < ·)
      rw [hkeys]
      exact hsorted
    · show (futPrevs (s.await_epoch_completed_futures ++ fs)).Pairwise (· < ·)
      rw [hq1eq]
      rw [List.pairwise_append]
      refine ⟨hqS, mhcaGo_futPrevs_pairwise hsorted hkm hmgo, ?_⟩
      intro q hq p hp
      obtain ⟨barq, hbq, hmemq⟩ := hqmem q hq
      obtain ⟨istp, barp, hbp, hmemp⟩ := hFutIss p hp
      exact hpre (q, ⟨barq, .AllCollected⟩) hmemq (p, ⟨barp, .Issued istp⟩) hmemp rfl rfl
    · intro y hy q hq
      have hq2 : q ∈ qprevs s ++ futPrevs fs := by
        rw [← hq1eq]
        exact hq
      rcases List.mem_append.mp hq2 with hq | hq
      · exact hylq y hy q hq
      · obtain ⟨istp, barp, hbp, hmemp⟩ := hFutIss q hq
        exact hyli y hy (q, ⟨barp, .Issued istp⟩) hmemp rfl
    · intro f hf
      show lookupKey f.barrier.epoch.prev mm = some { barrier := f.barrier, inner := .AllCollected }
      rcases List.mem_append.mp hf with hf | hf
      · have hmemf := mem_of_lookupKey _ _ _ (hqac f hf)
        have hmm : (f.barrier.epoch.prev,
            ({ barrier := f.barrier, inner := .AllCollected } : BarrierState)) ∈ mm :=
          mhcaGo_nonIssued_mem hmgo _ hmemf rfl
        exact lookupKey_of_mem_nodup _ _ _ hnd1 hmm
      · obtain ⟨ist1, _, _, _, hlook1⟩ := mhcaGo_futures hsorted hkm hmgo f hf
        exact hlook1
    · intro y hy e he hiss
      exact hyli y hy e (hIssMem e he hiss) hiss
    · intro e1 he1 e2 he2 hni1 hiss2
      rcases mhcaGo_mem_cases hmgo hkm e1 he1 with hmem1 | ⟨hac1, hp1⟩
      · exact hpre e1 hmem1 e2 (hIssMem e2 he2 hiss2) hni1 hiss2
      · exact mhcaGo_issued_lt hsorted hkm hmgo e1.1 hp1 e2 he2 hiss2
    · show ∀ k ∈ keysOf mm, oleOpt M k
      rw [hkeys]
      exact hkle
    · intro q hq
      have hq2 : q ∈ qprevs s ++ futPrevs fs := by
        rw [← hq1eq]
        exact hq
      rcases List.mem_append.mp hq2 with hq | hq
      · exact hqle q hq
      · obtain ⟨istp, barp, hbp, hmemp⟩ := hFutIss q hq
        exact hkle q (List.mem_map_of_mem Prod.fst hmemp)

theorem oleOpt_lt {M : Option Nat} {k p : Nat} (h1 : oleOpt M k) (h2 : oltOpt M p) :
    k < p := by
  cases M with
  | none => cases h1
  | some m => exact lt_of_le_of_lt h1 h2

theorem oleOpt_some_of_lt {k p : Nat} (h : k < p) : oleOpt (some p) k := le_of_lt h

/-- `transform_to_issued` with a fresh maximal epoch preserves the invariant
and raises the issued bound. -/
theorem ginv_issue (s : PGState) (ys : List Nat) (M : Option Nat) (b : Barrier)
    (actors : List ActorId) (tables : Finset TableId) (s1 : PGState)
    (hinv : GInv s ys M) (hlt : oltOpt M b.epoch.prev)
    (h : s.transform_to_issued b actors tables = .ok s1) :
    GInv s1 ys (some b.epoch.prev) := by
  obtain ⟨hsorted, hkm, hysS, hqS, hylq, hqac, hyli, hpre, hkle, hyle, hqle⟩ := hinv
  have hklt : ∀ k ∈ keysOf s.epoch_barrier_state_map, k < b.epoch.prev :=
    fun k hk => oleOpt_lt (hkle k hk) hlt
  unfold PartialGraphManagedBarrierState.transform_to_issued at h
  cases hup : updatePrevTableIds b tables s.prev_barrier_table_ids with
  | none => rw [hup] at h; cases h
  | some pr =>
    obtain ⟨new_prev, issued_table_ids⟩ := pr
    rw [hup] at h
    simp only at h
    cases hl : lookupKey b.epoch.prev s.epoch_barrier_state_map with
    | some bs => rw [hl] at h; cases h
    | none =>
      rw [hl] at h
      simp only at h
      have hfresh : b.epoch.prev ∉ keysOf s.epoch_barrier_state_map :=
        (lookupKey_eq_none_iff _ _).mp hl
      refine ginv_mhca _ ys (some b.epoch.prev) s1 ?_ h
      refine ⟨?_, ?_, hysS, hqS, hylq, ?_, ?_, ?_, ?_, ?_, ?_⟩
      · exact sorted_insertSorted _ _ _ hsorted hfresh
      · intro e he
        rcases (mem_insertSorted e _ _ _ hfresh).mp he with heq | he
        · subst heq
          rfl
        · exact hkm e he
      · intro f hf
        have hne : f.barrier.epoch.prev ≠ b.epoch.prev := by
          intro heq
          exact hfresh (heq ▸ mem_keysOf_of_lookup _ _ _ (hqac f hf))
        show lookupKey f.barrier.epoch.prev (insertSorted b.epoch.prev _ _) = _
        rw [lookupKey_insertSorted_ne _ _ _ _ hne]
        exact hqac f hf
      · intro y hy e he hiss
        rcases (mem_insertSorted e _ _ _ hfresh).mp he with heq | he
        · subst heq
          exact oleOpt_lt (hyle y hy) hlt
        · exact hyli y hy e he hiss
      · intro e1 he1 e2 he2 hni1 hiss2
        rcases (mem_insertSorted e1 _ _ _ hfresh).mp he1 with heq1 | he1
        · subst heq1
          simp [innerIssued] at hni1
        · rcases (mem_insertSorted e2 _ _ _ hfresh).mp he2 with heq2 | he2
          · subst heq2
            exact hklt e1.1 (List.mem_map_of_mem Prod.fst he1)
          · exact hpre e1 he1 e2 he2 hni1 hiss2
      · intro k hk
        rcases (mem_keysOf_insertSorted k _ _ _).mp hk with heq | hk
        · subst heq
          exact le_refl _
        · exact oleOpt_some_of_lt (hklt k hk)
      · intro y hy
        exact oleOpt_some_of_lt (oleOpt_lt (hyle y hy) hlt)
      · intro q hq
        exact oleOpt_some_of_lt (oleOpt_lt (hqle q hq) hlt)

/-- A successful graph-level `collect` preserves the invariant. -/
theorem ginv_collect (s : PGState) (ys : List Nat) (M : Option Nat) (aid : ActorId)
    (ep : EpochPair) (s1 : PGState)
    (hinv : GInv s ys M) (h : s.collect aid ep = .ok s1) :
    GInv s1 ys M := by
  obtain ⟨hsorted, hkm, hysS, hqS, hylq, hqac, hyli, hpre, hkle, hyle, hqle⟩ := hinv
  unfold PartialGraphManagedBarrierState.collect at h
  cases hl : lookupKey ep.prev s.epoch_barrier_state_map with
  | none => rw [hl] at h; cases h
  | some bs =>
    obtain ⟨bbar, binner⟩ := bs
    rw [hl] at h
    simp only at h
    cases binner with
    | AllCollected => cases h
    | Completed r => cases h
    | Issued ist =>
      simp only at h
      by_cases hmemA : aid ∈ ist.remaining_actors
      · rw [if_pos hmemA] at h
        by_cases hcurr : bbar.epoch.curr = ep.curr
        · rw [if_pos hcurr] at h
          have hmem0 : (ep.prev, (⟨bbar, .Issued ist⟩ : BarrierState)) ∈
              s.epoch_barrier_state_map := mem_of_lookupKey _ _ _ hl
          have hprev0 : bbar.epoch.prev = ep.prev := hkm _ hmem0
          refine ginv_mhca _ ys M s1 ?_ h
          refine ⟨?_, ?_, hysS, hqS, hylq, ?_, ?_, ?_, ?_, hyle, hqle⟩
          · show (keysOf (setKey ep.prev _ _)).Pairwise (· < ·)
            rw [keysOf_setKey]
            exact hsorted
          · intro e he
            rcases mem_setKey e _ _ _ he with heq | he
            · subst heq
              exact hprev0
            · exact hkm e he
          · intro f hf
            have hne : f.barrier.epoch.prev ≠ ep.prev := by
              intro heq
              have := hqac f hf
              rw [heq, hl] at this
              cases this
            show lookupKey f.barrier.epoch.prev (setKey ep.prev _ _) = _
            rw [lookupKey_setKey_ne _ _ _ _ hne]
            exact hqac f hf
          · intro y hy e he hiss
            rcases mem_setKey e _ _ _ he with heq | he
            · subst heq
              exact hyli y hy (ep.prev, (⟨bbar, .Issued ist⟩ : BarrierState)) hmem0 rfl
            · exact hyli y hy e he hiss
          · intro e1 he1 e2 he2 hni1 hiss2
            rcases mem_setKey e1 _ _ _ he1 with heq1 | he1
            · subst heq1
              simp [innerIssued] at hni1
            · rcases mem_setKey e2 _ _ _ he2 with heq2 | he2
              · subst heq2
                exact hpre e1 he1 (ep.prev, (⟨bbar, .Issued ist⟩ : BarrierState)) hmem0 hni1 rfl
              · exact hpre e1 he1 e2 he2 hni1 hiss2
          · intro k hk
            rw [show keysOf (setKey ep.prev ({ barrier := bbar, inner := .Issued { ist with remaining_actors := ist.remaining_actors.erase aid } } : BarrierState) s.epoch_barrier_state_map) = keysOf s.epoch_barrier_state_map from keysOf_setKey _ _ _] at hk
            exact hkle k hk
        · rw [if_neg hcurr] at h
          cases h
      · rw [if_neg hmemA] at h
        cases h

/-- A ready poll of the completion queue preserves the invariant, appending
the yielded `prev` epoch. -/
theorem ginv_poll (s : PGState) (ys : List Nat) (M : Option Nat) (bar : Barrier)
    (s1 : PGState)
    (hinv : GInv s ys M) (h : s.poll_next_completed_barrier = some (.ok (bar, s1))) :
    GInv s1 (ys ++ [bar.epoch.prev]) M := by
  obtain ⟨hsorted, hkm, hysS, hqS, hylq, hqac, hyli, hpre, hkle, hyle, hqle⟩ := hinv
  unfold PartialGraphManagedBarrierState.poll_next_completed_barrier at h
  cases hq0 : s.await_epoch_completed_futures with
  | nil => rw [hq0] at h; cases h
  | cons f rest =>
    rw [hq0] at h
    simp only at h
    cases hl : lookupKey f.barrier.epoch.prev s.epoch_barrier_state_map with
    | none =>
      rw [hl] at h
      cases h
    | some bs =>
      obtain ⟨bbar, binner⟩ := bs
      rw [hl] at h
      simp only at h
      cases binner with
      | Issued ist => cases h
      | Completed r => cases h
      | AllCollected =>
        cases h
        have hfhead : f ∈ s.await_epoch_completed_futures := by
          rw [hq0]
          exact List.mem_cons_self _ _
        have hlq : lookupKey f.barrier.epoch.prev s.epoch_barrier_state_map =
            some { barrier := f.barrier, inner := .AllCollected } := hqac f hfhead
        have hbeq : bbar = f.barrier := by
          rw [hl] at hlq
          injection hlq with hlq1
          injection hlq1
        subst hbeq
        have hmem0 : (f.barrier.epoch.prev, (⟨f.barrier, .AllCollected⟩ : BarrierState)) ∈
            s.epoch_barrier_state_map := mem_of_lookupKey _ _ _ hl
        have hprev0 : f.barrier.epoch.prev = f.barrier.epoch.prev := hkm _ hmem0
        have hqsplit : qprevs s = f.barrier.epoch.prev :: futPrevs rest := by
          simp [qprevs, futPrevs, hq0]
        have hfq : f.barrier.epoch.prev ∈ qprevs s := by
          rw [hqsplit]
          exact List.mem_cons_self _ _
        obtain ⟨hqlt, hqS'⟩ := List.pairwise_cons.mp (hqsplit ▸ hqS)
        refine ⟨?_, ?_, ?_, hqS', ?_, ?_, ?_, ?_, ?_, ?_, ?_⟩
        · show (keysOf (setKey f.barrier.epoch.prev _ _)).Pairwise (· < ·)
          rw [keysOf_setKey]
          exact hsorted
        · intro e he
          rcases mem_setKey e _ _ _ he with heq | he
          · subst heq
            exact hprev0
          · exact hkm e he
        · rw [List.pairwise_append]
          refine ⟨hysS, List.pairwise_singleton _ _, ?_⟩
          intro y hy p hp
          rcases List.mem_singleton.mp hp with rfl
          exact hylq y hy _ hfq
        · intro y hy q hq
          have hq2 : q ∈ futPrevs rest := hq
          rcases List.mem_append.mp hy with hy | hy
          · exact hylq y hy q (by rw [hqsplit]; exact List.mem_cons_of_mem _ hq2)
          · rcases List.mem_singleton.mp hy with rfl
            exact hqlt q hq2
        · intro g hg
          have hgq : g.barrier.epoch.prev ∈ futPrevs rest :=
            List.mem_map_of_mem _ hg
          have hne : g.barrier.epoch.prev ≠ f.barrier.epoch.prev :=
            (hqlt _ hgq).ne'
          show lookupKey g.barrier.epoch.prev (setKey f.barrier.epoch.prev _ _) = _
          rw [lookupKey_setKey_ne _ _ _ _ hne]
          exact hqac g (by rw [hq0]; exact List.mem_cons_of_mem _ hg)
        · intro y hy e he hiss
          rcases mem_setKey e _ _ _ he with heq | he
          · subst heq
            simp [innerIssued] at hiss
          · rcases List.mem_append.mp hy with hy | hy
            · exact hyli y hy e he hiss
            · rcases List.mem_singleton.mp hy with rfl
              exact hpre _ hmem0 e he rfl hiss
        · intro e1 he1 e2 he2 hni1 hiss2
          have he2' : e2 ∈ s.epoch_barrier_state_map := by
            rcases mem_setKey e2 _ _ _ he2 with heq2 | he2
            · subst heq2
              simp [innerIssued] at hiss2
            · exact he2
          rcases mem_setKey e1 _ _ _ he1 with heq1 | he1
          · subst heq1
            exact hpre _ hmem0 e2 he2' rfl hiss2
          · exact hpre e1 he1 e2 he2' hni1 hiss2
        · intro k hk
          rw [show keysOf (setKey f.barrier.epoch.prev ({ barrier := f.barrier, inner := .Completed { sync_result := f.sync_table_ids, create_mview_progress := f.create_mview_progress } } : BarrierState) s.epoch_barrier_state_map) = keysOf s.epoch_barrier_state_map from keysOf_setKey _ _ _] at hk
          exact hkle k hk
        · intro y hy
          rcases List.mem_append.mp hy with hy | hy
          · exact hyle y hy
          · rcases List.mem_singleton.mp hy with rfl
            exact hqle _ hfq
        · intro q hq
          exact hqle q (by rw [hqsplit]; exact List.mem_cons_of_mem _ hq)

/-- `pop_completed_epoch` preserves the invariant. -/
theorem ginv_pop (s : PGState) (ys : List Nat) (M : Option Nat) (p : Nat)
    (r : Option BarrierCompleteResult) (s1 : PGState)
    (hinv : GInv s ys M) (h : s.pop_completed_epoch p = .ok (r, s1)) :
    GInv s1 ys M := by
  obtain ⟨hsorted, hkm, hysS, hqS, hylq, hqac, hyli, hpre, hkle, hyle, hqle⟩ := hinv
  unfold PartialGraphManagedBarrierState.pop_completed_epoch at h
  cases hl : lookupKey p s.epoch_barrier_state_map with
  | none => rw [hl] at h; cases h
  | some bs =>
    obtain ⟨bbar, binner⟩ := bs
    rw [hl] at h
    simp only at h
    cases binner with
    | Issued ist =>
      cases h
      exact ⟨hsorted, hkm, hysS, hqS, hylq, hqac, hyli, hpre, hkle, hyle, hqle⟩
    | AllCollected =>
      cases h
      exact ⟨hsorted, hkm, hysS, hqS, hylq, hqac, hyli, hpre, hkle, hyle, hqle⟩
    | Completed r0 =>
      cases h
      have hsub : List.Sublist (eraseKey p s.epoch_barrier_state_map)
          s.epoch_barrier_state_map := eraseKey_sublist p _
      have hksub : List.Sublist (keysOf (eraseKey p s.epoch_barrier_state_map))
          (keysOf s.epoch_barrier_state_map) := List.Sublist.map Prod.fst hsub
      refine ⟨hsorted.sublist hksub, ?_, hysS, hqS, hylq, ?_, ?_, ?_, ?_, hyle, hqle⟩
      · intro e he
        exact hkm e (hsub.subset he)
      · intro f hf
        have hne : f.barrier.epoch.prev ≠ p := by
          intro heq
          have := hqac f hf
          rw [heq, hl] at this
          cases this
        show lookupKey f.barrier.epoch.prev (eraseKey p _) = _
        rw [lookupKey_eraseKey_ne _ _ _ hne]
        exact hqac f hf
      · intro y hy e he hiss
        exact hyli y hy e (hsub.subset he) hiss
      · intro e1 he1 e2 he2 hni1 hiss2
        exact hpre e1 (hsub.subset he1) e2 (hsub.subset he2) hni1 hiss2
      · intro k hk
        exact hkle k (hksub.subset hk)


/-- A trace whose issues are strictly increasing preserves the invariant. -/
theorem runOps_ginv (ops : List GraphOp) :
    ∀ (s : PGState) (ys : List Nat) (M : Option Nat),
    GInv s ys M → (∀ p ∈ issuePrevs ops, oltOpt M p) →
    (issuePrevs ops).Pairwise (· < ·) →
    ∀ (s1 : PGState) (d : List Nat), runOps s ops = some (s1, d) →
    ∃ M1, GInv s1 (ys ++ d) M1 := by
  induction ops with
  | nil =>
    intro s ys M hinv _ _ s1 d h
    unfold runOps at h
    injection h with h
    injection h with h1 h2
    subst h1
    subst h2
    exact ⟨M, by simpa using hinv⟩
  | cons op rest ih =>
    intro s ys M hinv hops hmono s1 d h
    unfold runOps at h
    cases hap : applyOp s op with
    | none => rw [hap] at h; cases h
    | some p0 =>
      obtain ⟨s0, d0⟩ := p0
      rw [hap] at h
      simp only at h
      cases hrec : runOps s0 rest with
      | none => rw [hrec] at h; cases h
      | some p2 =>
        obtain ⟨s2, ys2⟩ := p2
        rw [hrec] at h
        simp only at h
        injection h with h
        injection h with h1 h2
        subst h1
        subst h2
        cases op with
        | issue b actors tables =>
          unfold applyOp at hap
          simp only at hap
          cases hti : s.transform_to_issued b actors tables with
          | panicked x => rw [hti] at hap; simp only at hap; cases hap
          | ok sA =>
            rw [hti] at hap
            simp only at hap
            injection hap with hap
            injection hap with ha1 ha2
            subst ha1
            subst ha2
            have hipeq : issuePrevs (GraphOp.issue b actors tables :: rest) =
                b.epoch.prev :: issuePrevs rest := rfl
            rw [hipeq] at hops hmono
            have hlt : oltOpt M b.epoch.prev := hops _ (List.mem_cons_self _ _)
            have hinv1 := ginv_issue s ys M b actors tables sA hinv hlt hti
            obtain ⟨hhd, htl⟩ := List.pairwise_cons.mp hmono
            have hops' : ∀ p ∈ issuePrevs rest, oltOpt (some b.epoch.prev) p := by
              intro p hp
              exact hhd p hp
            obtain ⟨M1, hM1⟩ := ih sA ys (some b.epoch.prev) hinv1 hops' htl s2 ys2 hrec
            exact ⟨M1, by simpa using hM1⟩
        | collect aid ep =>
          unfold applyOp at hap
          simp only at hap
          cases hc : s.collect aid ep with
          | panicked x => rw [hc] at hap; simp only at hap; cases hap
          | ok sA =>
            rw [hc] at hap
            simp only at hap
            injection hap with hap
            injection hap with ha1 ha2
            subst ha1
            subst ha2
            have hinv1 := ginv_collect s ys M aid ep sA hinv hc
            have hipeq : issuePrevs (GraphOp.collect aid ep :: rest) =
                issuePrevs rest := rfl
            rw [hipeq] at hops hmono
            obtain ⟨M1, hM1⟩ := ih sA ys M hinv1 hops hmono s2 ys2 hrec
            exact ⟨M1, by simpa using hM1⟩
        | poll =>
          unfold applyOp at hap
          simp only at hap
          have hipeq : issuePrevs (GraphOp.poll :: rest) = issuePrevs rest := rfl
          rw [hipeq] at hops hmono
          cases hp : s.poll_next_completed_barrier with
          | none =>
            rw [hp] at hap
            simp only at hap
            injection hap with hap
            injection hap with ha1 ha2
            subst ha1
            subst ha2
            obtain ⟨M1, hM1⟩ := ih s ys M hinv hops hmono s2 ys2 hrec
            exact ⟨M1, by simpa using hM1⟩
          | some pr =>
            rw [hp] at hap
            cases pr with
            | panicked x => simp only at hap; cases hap
            | ok bp =>
              obtain ⟨bar, sA⟩ := bp
              simp only at hap
              injection hap with hap
              injection hap with ha1 ha2
              subst ha1
              subst ha2
              have hinv1 := ginv_poll s ys M bar sA hinv hp
              obtain ⟨M1, hM1⟩ :=
                ih sA (ys ++ [bar.epoch.prev]) M hinv1 hops hmono s2 ys2 hrec
              exact ⟨M1, by simpa using hM1⟩
        | popCompleted pe =>
          unfold applyOp at hap
          simp only at hap
          have hipeq : issuePrevs (GraphOp.popCompleted pe :: rest) =
              issuePrevs rest := rfl
          rw [hipeq] at hops hmono
          cases hpc : s.pop_completed_epoch pe with
          | error e =>
            rw [hpc] at hap
            simp only at hap
            injection hap with hap
            injection hap with ha1 ha2
            subst ha1
            subst ha2
            obtain ⟨M1, hM1⟩ := ih s ys M hinv hops hmono s2 ys2 hrec
            exact ⟨M1, by simpa using hM1⟩
          | ok pr =>
            obtain ⟨r, sA⟩ := pr
            rw [hpc] at hap
            simp only at hap
            injection hap with hap
            injection hap with ha1 ha2
            subst ha1
            subst ha2
            have hinv1 := ginv_pop s ys M pe r sA hinv hpc
            obtain ⟨M1, hM1⟩ := ih sA ys M hinv1 hops hmono s2 ys2 hrec
            exact ⟨M1, by simpa using hM1⟩

/-- C1: counterexample. Issuing an `Initial` barrier with prev epoch 5 and
then a `Checkpoint` barrier with the regressed prev epoch 3 (the
`Checkpoint` arm performs no epoch-continuity check) makes the two polls of
`poll_next_completed_barrier` yield the prev epochs `[5, 3]`, which is not
strictly ascending. -/
theorem c1_counterexample_out_of_order_checkpoint :
    c1badRun = some (c1badS, c1badYs) ∧ c1badYs = [5, 3] ∧
      ¬ c1badYs.Pairwise (· < ·) :=
  ⟨by decide, by decide, by decide⟩

/-- C1 (amended): provided the `transform_to_issued` calls of the trace
carry strictly increasing `prev` epochs, every completion future is
enqueued in strictly ascending prev-epoch order and the sequence of prev
epochs yielded by `poll_next_completed_barrier` over the whole trace is
strictly ascending. -/
theorem c1_completion_epochs_ascending_of_monotone_issue
    (ops : List GraphOp) (s1 : PGState) (ys : List Nat)
    (hmono : (issuePrevs ops).Pairwise (· < ·))
    (h : runOps pgInit ops = some (s1, ys)) :
    ys.Pairwise (· < ·) := by
  have hinv0 : GInv pgInit [] none := by
    constructor <;> simp [pgInit, keysOf, qprevs, futPrevs]
  have hops : ∀ p ∈ issuePrevs ops, oltOpt none p := by
    intro p hp
    simp [oltOpt]
  obtain ⟨M1, hM1⟩ := runOps_ginv ops pgInit [] none hinv0 hops hmono s1 ys h
  simpa using hM1.ysSorted

/-- C1: witness for the amended theorem on a concrete well-ordered trace. -/
theorem c1_completion_epochs_ascending_of_monotone_issue_witness :
    c1okRun = some (c1okS, c1okYs) ∧
      (issuePrevs c1okOps).Pairwise (· < ·) ∧ c1okYs.Pairwise (· < ·) :=
  ⟨by decide, by decide,
    c1_completion_epochs_ascending_of_monotone_issue c1okOps c1okS c1okYs
      (by decide) (by decide)⟩
